import Mathlib

set_option maxRecDepth 8000

/-!
Verification model of the asynchronous event-processing platform
(backend of the Teste-tecnico-Fluke repository).

The development shallowly embeds the data model and the operations of the
backend: JSON values, the JSONLogic condition validator
(backend/src/domain/jsonLogic.ts and the zod boundary schema in
backend/src/domain/validators.ts), the typed actions and the action
dispatcher (backend/src/worker/actions.ts, backend/src/domain/actionUtils.ts),
the persistent store (db/migrations), the event service
(backend/src/services/event.service.ts), the replay service
(backend/src/services/replay.service.ts), the rule service
(backend/src/services/rule.service.ts), and the worker claim/process cycle.
Timestamps are modelled as natural-number ticks, SQL NOW() becomes an
explicit `now` argument, and a SQL transaction becomes a single pure state
update.  External effects (the webhook fetch, condition evaluation through
the json-logic-js library) are parameters of the model.
-/

/-! ## JSON values

Free-form JSON, as stored in event payloads and rule conditions.  Arrays
and objects are mutually inductive lists so that structural recursion and
induction stay simple.  Numbers are modelled as integers; every number in
the model is finite, which matches the Number.isFinite guard of the
boundary validator.
-/

mutual
inductive Json where
  | jnull : Json
  | jbool : Bool → Json
  | jnum : Int → Json
  | jstr : String → Json
  | jarr : JsonList → Json
  | jobj : JsonObj → Json

inductive JsonList where
  | nil : JsonList
  | cons : Json → JsonList → JsonList

inductive JsonObj where
  | nil : JsonObj
  | cons : String → Json → JsonObj → JsonObj
end

mutual
def Json.beq : Json → Json → Bool
  | .jnull, .jnull => true
  | .jbool a, .jbool b => a == b
  | .jnum a, .jnum b => a == b
  | .jstr a, .jstr b => a == b
  | .jarr a, .jarr b => JsonList.beq a b
  | .jobj a, .jobj b => JsonObj.beq a b
  | _, _ => false

def JsonList.beq : JsonList → JsonList → Bool
  | .nil, .nil => true
  | .cons x xs, .cons y ys => Json.beq x y && JsonList.beq xs ys
  | _, _ => false

def JsonObj.beq : JsonObj → JsonObj → Bool
  | .nil, .nil => true
  | .cons k v t, .cons k' v' t' => k == k' && Json.beq v v' && JsonObj.beq t t'
  | _, _ => false
end

mutual
def Json.beq_iff : ∀ a b : Json, Json.beq a b = true ↔ a = b
  | .jnull, b => by cases b <;> simp [Json.beq]
  | .jbool x, b => by cases b <;> simp [Json.beq]
  | .jnum x, b => by cases b <;> simp [Json.beq]
  | .jstr x, b => by cases b <;> simp [Json.beq]
  | .jarr x, b => by
      cases b
      case jarr y => simpa [Json.beq] using JsonList.beq_iff x y
      all_goals simp [Json.beq]
  | .jobj x, b => by
      cases b
      case jobj y => simpa [Json.beq] using JsonObj.beq_iff x y
      all_goals simp [Json.beq]

def JsonList.beq_iff : ∀ a b : JsonList, JsonList.beq a b = true ↔ a = b
  | .nil, b => by cases b <;> simp [JsonList.beq]
  | .cons x xs, b => by
      cases b
      case cons y ys =>
        simp [JsonList.beq, Json.beq_iff x y, JsonList.beq_iff xs ys]
      all_goals simp [JsonList.beq]

def JsonObj.beq_iff : ∀ a b : JsonObj, JsonObj.beq a b = true ↔ a = b
  | .nil, b => by cases b <;> simp [JsonObj.beq]
  | .cons k v t, b => by
      cases b
      case cons k' v' t' =>
        simp [JsonObj.beq, Json.beq_iff v v', JsonObj.beq_iff t t', and_assoc]
      all_goals simp [JsonObj.beq]
end

instance : DecidableEq Json := fun a b =>
  decidable_of_iff (Json.beq a b = true) (Json.beq_iff a b)

instance : DecidableEq JsonList := fun a b =>
  decidable_of_iff (JsonList.beq a b = true) (JsonList.beq_iff a b)

instance : DecidableEq JsonObj := fun a b =>
  decidable_of_iff (JsonObj.beq a b = true) (JsonObj.beq_iff a b)

/-! ## Condition validation (backend/src/domain/jsonLogic.ts)

The file validates a JSONLogic expression with three checks: nesting depth
(validateDepth, limit MAX_DEPTH = 10), operator count (countOperators,
limit MAX_OPERATORS = 50) and node structure (validateNode: every operator
object carries an allowed key, and the root must be an operator object).
The ok/error result record becomes an Option String: none is ok, some is
the error message.
-/

def ALLOWED_OPERATORS : List String :=
  ["==", "===", "!=", "!==", ">", ">=", "<", "<=",
   "and", "or", "!",
   "var",
   "missing", "missing_some", "in",
   "if",
   "+", "-", "*", "/", "%", "min", "max",
   "cat", "substr", "length"]

def isAllowedOperator (op : String) : Bool :=
  ALLOWED_OPERATORS.contains op

def depthErrMsg : String :=
  "JSONLogic expression exceeds maximum depth of 10"

def countErrMsg (n : Nat) : String :=
  "JSONLogic expression has " ++ toString n ++ " operators, exceeds maximum of 50"

def rootErrMsg : String :=
  "Condition root must be a JSONLogic operator object"

mutual
def validateDepth (v : Json) (d : Nat) : Option String :=
  if d > 10 then some depthErrMsg
  else match v with
    | .jarr xs => validateDepthList xs (d + 1)
    | .jobj fs => validateDepthObj fs (d + 1)
    | _ => none

def validateDepthList (xs : JsonList) (d : Nat) : Option String :=
  match xs with
  | .nil => none
  | .cons x t =>
    match validateDepth x d with
    | some e => some e
    | none => validateDepthList t d

def validateDepthObj (fs : JsonObj) (d : Nat) : Option String :=
  match fs with
  | .nil => none
  | .cons _ v t =>
    match validateDepth v d with
    | some e => some e
    | none => validateDepthObj t d
end

/- Specification-level nesting depth of a JSON tree: scalars and empty
containers have depth 0, a container is one deeper than its deepest
child.  Used to characterise validateDepth. -/
mutual
def jsonDepth : Json → Nat
  | .jnull => 0
  | .jbool _ => 0
  | .jnum _ => 0
  | .jstr _ => 0
  | .jarr xs => jsonDepthList xs
  | .jobj fs => jsonDepthObj fs

def jsonDepthList : JsonList → Nat
  | .nil => 0
  | .cons x xs => max (1 + jsonDepth x) (jsonDepthList xs)

def jsonDepthObj : JsonObj → Nat
  | .nil => 0
  | .cons _ v t => max (1 + jsonDepth v) (jsonDepthObj t)
end

mutual
def countOperators : Json → Nat
  | .jarr xs => countOperatorsList xs
  | .jobj (.cons k v .nil) =>
      if isAllowedOperator k then 1 + countOperators v else 1
  | .jobj fs => countOperatorsObj fs
  | _ => 0

def countOperatorsList : JsonList → Nat
  | .nil => 0
  | .cons x t => countOperators x + countOperatorsList t

def countOperatorsObj : JsonObj → Nat
  | .nil => 0
  | .cons _ v t => countOperators v + countOperatorsObj t
end

mutual
def validateNode : Json → Bool → Option String
  | .jarr xs, r => if r then some rootErrMsg else validateNodeList xs
  | .jobj (.cons k v .nil), _ =>
      if isAllowedOperator k then validateNode v false
      else some ("Operator not allowed: " ++ k)
  | .jobj fs, r => if r then some rootErrMsg else validateNodeObj fs
  | _, _ => none

def validateNodeList : JsonList → Option String
  | .nil => none
  | .cons x t =>
    match validateNode x false with
    | some e => some e
    | none => validateNodeList t

def validateNodeObj : JsonObj → Option String
  | .nil => none
  | .cons _ v t =>
    match validateNode v false with
    | some e => some e
    | none => validateNodeObj t
end

/-- validateJsonLogicCondition: depth check first, then operator count,
then structural validation of nodes and operators.  none means valid. -/
def validateJsonLogicCondition (c : Json) : Option String :=
  match validateDepth c 0 with
  | some e => some e
  | none =>
    if countOperators c > 50 then some (countErrMsg (countOperators c))
    else validateNode c true

/-! ## Boundary schema (backend/src/domain/validators.ts)

jsonLogicSchema is a zod custom check (the value is a JSON value of depth
at most MAX_JSON_DEPTH = 20 and is an array or a plain object) refined by
validateJsonLogicCondition.  A condition submitted at rule create or rule
update is accepted exactly when both pass.
-/

mutual
def isJsonValue (v : Json) (d : Nat) : Bool :=
  if d > 20 then false
  else match v with
    | .jnull => true
    | .jbool _ => true
    | .jnum _ => true
    | .jstr _ => true
    | .jarr xs => isJsonValueList xs (d + 1)
    | .jobj fs => isJsonValueObj fs (d + 1)

def isJsonValueList (xs : JsonList) (d : Nat) : Bool :=
  match xs with
  | .nil => true
  | .cons x t => isJsonValue x d && isJsonValueList t d

def isJsonValueObj (fs : JsonObj) (d : Nat) : Bool :=
  match fs with
  | .nil => true
  | .cons _ v t => isJsonValue v d && isJsonValueObj t d
end

def isArrayJson : Json → Bool
  | .jarr _ => true
  | _ => false

def isPlainObjectJson : Json → Bool
  | .jobj _ => true
  | _ => false

/-- Acceptance of a condition by the rule create/update boundary schema. -/
def jsonLogicSchemaAccepts (c : Json) : Bool :=
  (isJsonValue c 0 && (isArrayJson c || isPlainObjectJson c)) &&
  (validateJsonLogicCondition c == none)


/-! ## Actions (backend/src/domain/types.ts, actionUtils.ts, worker/actions.ts)

Actions are a tagged union (named RuleAction here because Mathlib already
uses the name Action).  Only the parameters that influence control flow
are kept (the webhook url and method, the email header fields, the log
level and message); optional payload details do not affect the dispatch
outcome.  The webhook fetch and the EMAIL_MODE deployment flag are
external, so they enter the model as an environment record.
-/

inductive RuleAction where
  | log (level message : String)
  | noop
  | call_webhook (url method : String)
  | send_email (to_ subject template : String)
deriving DecidableEq

/-- isIdempotentAction from backend/src/domain/actionUtils.ts:
log and noop are idempotent, webhook and email are not. -/
def isIdempotentAction : RuleAction → Bool
  | .log _ _ => true
  | .noop => true
  | _ => false

/-- External environment of the action dispatcher: the EMAIL_MODE=log
flag and the outcome of a webhook fetch for a given url and method
(ok, or the rendered failure such as a non-2xx status message). -/
structure ActionEnv where
  emailLogMode : Bool
  webhookResult : String → String → Except String Unit

/-- executeAction from backend/src/worker/actions.ts: log writes a log
line and never throws, noop does nothing, call_webhook performs one HTTP
request and throws on a non-ok response or transport error, send_email
succeeds only in EMAIL_MODE=log and otherwise throws not-implemented. -/
def executeAction (env : ActionEnv) : RuleAction → Except String Unit
  | .log _ _ => .ok ()
  | .noop => .ok ()
  | .call_webhook url method => env.webhookResult url method
  | .send_email _ _ _ =>
      if env.emailLogMode then .ok ()
      else .error "send_email not implemented (set EMAIL_MODE=log to simulate)"

/-! ## Persistent entities (db/migrations, backend/src/domain/types.ts) -/

inductive EventState where
  | pending
  | processing
  | processed
  | failed
deriving DecidableEq

inductive AttemptStatus where
  | success
  | failed
deriving DecidableEq

inductive RuleExecutionResult where
  | applied
  | skipped
  | failed
  | deduped
deriving DecidableEq

structure Event where
  id : Nat
  external_id : String
  type : String
  payload : Json
  state : EventState
  received_count : Nat
  created_at : Nat
  processing_started_at : Option Nat
  processed_at : Option Nat
  replayed_at : Option Nat
deriving DecidableEq

structure EventAttempt where
  id : Nat
  event_id : Nat
  status : Option AttemptStatus
  error : Option String
  started_at : Nat
  finished_at : Option Nat
  duration_ms : Option Int
deriving DecidableEq

structure Rule where
  id : Nat
  name : String
  event_type : String
  active : Bool
  current_version_id : Option Nat
  created_at : Nat
  updated_at : Nat
deriving DecidableEq

structure RuleVersion where
  id : Nat
  rule_id : Nat
  condition : Json
  action : RuleAction
  version : Nat
  created_at : Nat
deriving DecidableEq

structure RuleExecution where
  id : Nat
  attempt_id : Nat
  rule_id : Nat
  rule_version_id : Nat
  result : RuleExecutionResult
  error : Option String
  executed_at : Nat
deriving DecidableEq

/-- The relational store: the five tables plus the SERIAL id counters. -/
structure Store where
  events : List Event
  attempts : List EventAttempt
  rules : List Rule
  ruleVersions : List RuleVersion
  ruleExecutions : List RuleExecution
  nextEventId : Nat
  nextAttemptId : Nat
  nextVersionId : Nat
  nextExecId : Nat
deriving DecidableEq

def Store.empty : Store :=
  { events := [], attempts := [], rules := [], ruleVersions := [],
    ruleExecutions := [], nextEventId := 1, nextAttemptId := 1,
    nextVersionId := 1, nextExecId := 1 }

inductive SvcError where
  | notFound
  | conflict
  | validation
  | internal
deriving DecidableEq

/-! ## Event service (backend/src/services/event.service.ts) -/

structure EventCreatePayload where
  id : String
  type : String
  data : Json
deriving DecidableEq

/-- EventService.create: a single-transaction upsert on external_id.  A
new external_id inserts a pending row with received_count 1; an existing
external_id only increments received_count (payload, type and state are
untouched) and the updated row is returned. -/
def EventService.create (now : Nat) (p : EventCreatePayload) (s : Store) :
    Event × Store :=
  match s.events.find? (fun e => e.external_id == p.id) with
  | some e =>
      ({ e with received_count := e.received_count + 1 },
       { s with events := s.events.map (fun x =>
           if x.external_id == p.id then
             { x with received_count := x.received_count + 1 }
           else x) })
  | none =>
      let e : Event :=
        { id := s.nextEventId
          external_id := p.id
          type := p.type
          payload := p.data
          state := .pending
          received_count := 1
          created_at := now
          processing_started_at := none
          processed_at := none
          replayed_at := none }
      (e, { s with events := s.events ++ [e],
                   nextEventId := s.nextEventId + 1 })

/-- EventService.requeueStuck: every event in state processing whose
processing_started_at is older than the timeout goes back to pending with
processing_started_at cleared; the recovered rows are returned.  The SQL
comparison processing_started_at < NOW() - interval is written
additively (t + timeout < now) to avoid truncated subtraction. -/
def EventService.requeueStuck (now timeoutSeconds : Nat) (s : Store) :
    List Event × Store :=
  let stuck := fun (e : Event) =>
    e.state == .processing &&
    (match e.processing_started_at with
     | some t => t + timeoutSeconds < now
     | none => false)
  ((s.events.filter stuck).map (fun e =>
      { e with state := .pending, processing_started_at := none }),
   { s with events := s.events.map (fun e =>
       if stuck e then { e with state := .pending, processing_started_at := none }
       else e) })

/-! ## Replay service (backend/src/services/replay.service.ts) -/

structure ReplayResponse where
  message : String
  event : Event
  warning : String
deriving DecidableEq

def replayWarning : String :=
  "Replay uses current rules. Non-idempotent actions are deduplicated (at-most-once) but may be skipped if previously applied."

/-- ReplayService.replayEvent: not-found when the id is absent, conflict
unless the state is processed or failed, otherwise one transaction sets
state = pending, replayed_at = now, processing_started_at = null and the
updated row is returned together with the replay warning.  On an error
the transaction rolls back, so the store is returned unchanged. -/
def ReplayService.replayEvent (now eventId : Nat) (s : Store) :
    Except SvcError ReplayResponse × Store :=
  match s.events.find? (fun e => e.id == eventId) with
  | none => (.error .notFound, s)
  | some e =>
      if e.state == .processed || e.state == .failed then
        (.ok { message := "Event queued for replay"
               event := { e with
                 state := .pending
                 replayed_at := some now
                 processing_started_at := none }
               warning := replayWarning },
         { s with events := s.events.map (fun x =>
             if x.id == eventId then
               { x with
                 state := .pending
                 replayed_at := some now
                 processing_started_at := none }
             else x) })
      else (.error .conflict, s)

/-- ReplayService.replayBatch: one transaction returns to pending (with
replayed_at = now, processing_started_at = null) exactly the listed ids
currently in a replayable state; other ids are silently excluded.  The
replayed rows are returned. -/
def ReplayService.replayBatch (now : Nat) (ids : List Nat) (s : Store) :
    List Event × Store :=
  let hit := fun (e : Event) =>
    ids.contains e.id && (e.state == .processed || e.state == .failed)
  ((s.events.filter hit).map (fun e =>
      { e with
        state := .pending
        replayed_at := some now
        processing_started_at := none }),
   { s with events := s.events.map (fun e =>
       if hit e then
         { e with
           state := .pending
           replayed_at := some now
           processing_started_at := none }
       else e) })

/-! ## Rule service (backend/src/services/rule.service.ts) -/

structure RuleUpdatePayload where
  name : Option String
  event_type : Option String
  condition : Option Json
  action : Option RuleAction
  active : Option Bool
deriving DecidableEq

/-- RuleService.update: metadata fields present in the payload are
written in place (bumping updated_at when at least one is present); when
the payload carries a condition or an action the current version is read,
a new version with version = current + 1 is inserted (absent fields are
copied from the current version) and current_version_id is retargeted,
bumping updated_at.  Reading the current version of a rule whose pointer
is null dereferences undefined in the source, modelled as an internal
error.  The whole update is one transaction. -/
def RuleService.update (now ruleId : Nat) (p : RuleUpdatePayload) (s : Store) :
    Except SvcError Store :=
  match s.rules.find? (fun r => r.id == ruleId) with
  | none => .error .notFound
  | some rule =>
      let metaPresent := p.name.isSome || p.event_type.isSome || p.active.isSome
      let rule1 : Rule :=
        { rule with
          name := p.name.getD rule.name
          event_type := p.event_type.getD rule.event_type
          active := p.active.getD rule.active
          updated_at := if metaPresent then now else rule.updated_at }
      if p.condition.isSome || p.action.isSome then
        match rule.current_version_id.bind
            (fun vid => s.ruleVersions.find? (fun v => v.id == vid)) with
        | none => .error .internal
        | some cur =>
            let nv : RuleVersion :=
              { id := s.nextVersionId
                rule_id := ruleId
                condition := p.condition.getD cur.condition
                action := p.action.getD cur.action
                version := cur.version + 1
                created_at := now }
            .ok { s with
              ruleVersions := s.ruleVersions ++ [nv]
              nextVersionId := s.nextVersionId + 1
              rules := s.rules.map (fun r =>
                if r.id == ruleId then
                  { rule1 with
                    current_version_id := some nv.id
                    updated_at := now }
                else r) }
      else
        .ok { s with rules := s.rules.map (fun r =>
          if r.id == ruleId then rule1 else r) }

/-! ## Worker: claim and process

The current worker.ts and processor.ts modules are absent from the
backend sources (the checked-in worker.ts and the stray processor copy
are stale earlier variants: they lack the processing_started_at write,
the duration_ms write and the replay dedup that the integration tests
exercise, and they do not export the claimNextEvent and __testOnly
symbols those tests import).  The definitions below therefore embed the
worker per the specification, while loadRulesForEvent follows the SQL of
the checked-in processor copy, whose join is shared by both variants.
-/

structure RuleRow where
  rule_id : Nat
  rule_name : String
  rule_version_id : Nat
  rule_version : Nat
  condition : Json
  action : RuleAction
deriving DecidableEq

def insertRowById (x : RuleRow) : List RuleRow → List RuleRow
  | [] => [x]
  | y :: ys =>
      if x.rule_id ≤ y.rule_id then x :: y :: ys else y :: insertRowById x ys

def sortRowsById (l : List RuleRow) : List RuleRow :=
  l.foldr insertRowById []

/-- loadRulesForEvent: active rules of the event type, each inner-joined
with its current version (rules whose current_version_id is null or
dangling produce no row), ordered by rule id ascending. -/
def loadRulesForEvent (s : Store) (eventType : String) : List RuleRow :=
  sortRowsById (s.rules.filterMap (fun r =>
    if r.active && r.event_type == eventType then
      match r.current_version_id with
      | some vid =>
        match s.ruleVersions.find? (fun v => v.id == vid) with
        | some v => some { rule_id := r.id
                           rule_name := r.name
                           rule_version_id := v.id
                           rule_version := v.version
                           condition := v.condition
                           action := v.action }
        | none => none
      | none => none
    else none))

/-- Modelled from the spec: the replay deduplication predicate of
section 4.3.1, whose implementation lives in the missing current
processor.ts.  It holds when the store contains any prior rule execution
with matching event id (via its attempt) and rule version id whose
result is applied or deduped. -/
def dedupHolds (s : Store) (eventId vid : Nat) : Bool :=
  s.ruleExecutions.any (fun x =>
    x.rule_version_id == vid &&
    (x.result == .applied || x.result == .deduped) &&
    s.attempts.any (fun a => a.id == x.attempt_id && a.event_id == eventId))

def pickOlder (acc : Option Event) (e : Event) : Option Event :=
  match acc with
  | none => some e
  | some b => if e.created_at < b.created_at then some e else some b

/-- The SELECT of the claim transaction: the oldest pending event by
created_at ascending, limit 1 (the first of the ties in table order). -/
def oldestPending (events : List Event) : Option Event :=
  (events.filter (fun e => e.state == .pending)).foldl pickOlder none

/-- Modelled from the spec: the claim-next operation of section 4.4,
whose implementation lives in the missing current worker.ts (the stale
checked-in variant omits processing_started_at).  One transaction locks
the oldest pending event; if none exists it returns no work, otherwise
it sets state = processing and processing_started_at = now, inserts an
attempt row (status null, started_at = now) and returns the event with
the new attempt id. -/
def claimNextEvent (now : Nat) (s : Store) :
    Option (Event × Nat) × Store :=
  match oldestPending s.events with
  | none => (none, s)
  | some e =>
      let a : EventAttempt :=
        { id := s.nextAttemptId
          event_id := e.id
          status := none
          error := none
          started_at := now
          finished_at := none
          duration_ms := none }
      (some ({ e with state := .processing, processing_started_at := some now },
             a.id),
       { s with
         events := s.events.map (fun x =>
           if x.id == e.id then
             { x with state := .processing, processing_started_at := some now }
           else x)
         attempts := s.attempts ++ [a]
         nextAttemptId := s.nextAttemptId + 1 })

/-- Modelled from the spec: one rule iteration of section 4.3 step 2, in
the missing current processor.ts.  Condition evaluation is the external
json-logic-js call, passed in as evalC together with its error
rendering; a raise records failed with the rendered message.  A false
condition records skipped.  A true condition consults the dedup
predicate, short-circuited to false for idempotent tags, then dispatches
through executeAction. -/
def ruleOutcome (env : ActionEnv) (evalC : Json → Json → Except String Bool)
    (s : Store) (eventId : Nat) (payload : Json) (r : RuleRow) :
    RuleExecutionResult × Option String :=
  match evalC r.condition payload with
  | .error m => (.failed, some m)
  | .ok false => (.skipped, none)
  | .ok true =>
      if !(isIdempotentAction r.action) && dedupHolds s eventId r.rule_version_id
      then (.deduped, none)
      else
        match executeAction env r.action with
        | .ok _ => (.applied, none)
        | .error m => (.failed, some m)

/-- Modelled from the spec: the per-rule loop of section 4.3 step 2, in
the missing current processor.ts.  Each rule records exactly one rule
execution; failures append their rendered message to the attempt error
list and never abort the remaining rules. -/
def execRowOf (env : ActionEnv) (evalC : Json → Json → Except String Bool)
    (now aid eventId : Nat) (payload : Json) (s : Store) (r : RuleRow) :
    RuleExecution :=
  { id := s.nextExecId
    attempt_id := aid
    rule_id := r.rule_id
    rule_version_id := r.rule_version_id
    result := (ruleOutcome env evalC s eventId payload r).1
    error := (ruleOutcome env evalC s eventId payload r).2
    executed_at := now }

def stepStore (env : ActionEnv) (evalC : Json → Json → Except String Bool)
    (now aid eventId : Nat) (payload : Json) (s : Store) (r : RuleRow) :
    Store :=
  { s with
    ruleExecutions := s.ruleExecutions ++
      [execRowOf env evalC now aid eventId payload s r]
    nextExecId := s.nextExecId + 1 }

def runRules (env : ActionEnv) (evalC : Json → Json → Except String Bool)
    (now aid eventId : Nat) (payload : Json) :
    Store → List RuleRow → Store × List String
  | s, [] => (s, [])
  | s, r :: rest =>
      let tail := runRules env evalC now aid eventId payload
        (stepStore env evalC now aid eventId payload s r) rest
      (tail.1,
       match (ruleOutcome env evalC s eventId payload r).2 with
       | some m => m :: tail.2
       | none => tail.2)

/-- Modelled from the spec: the finalization transaction of section 4.3
step 3, in the missing current processor.ts.  A non-empty error list
yields attempt failed (error = newline-joined list) and event failed,
otherwise success and processed; both branches set finished_at = now,
duration_ms = finished_at - started_at, processed_at = now and clear
processing_started_at, atomically. -/
def finalizeAttemptRow (now aid : Nat) (errs : List String)
    (a : EventAttempt) : EventAttempt :=
  if a.id == aid then
    { a with
      status := some (if errs.isEmpty then .success else .failed)
      error := if errs.isEmpty then none
               else some (String.intercalate "\n" errs)
      finished_at := some now
      duration_ms := some ((now : Int) - (a.started_at : Int)) }
  else a

def finalizeEventRow (now eventId : Nat) (errs : List String)
    (e : Event) : Event :=
  if e.id == eventId then
    { e with
      state := if errs.isEmpty then .processed else .failed
      processed_at := some now
      processing_started_at := none }
  else e

def finalizePass (now aid eventId : Nat) (errs : List String) (s : Store) :
    Store :=
  { s with
    attempts := s.attempts.map (finalizeAttemptRow now aid errs)
    events := s.events.map (finalizeEventRow now eventId errs) }

/-- Modelled from the spec: processClaimedEvent of the missing current
processor.ts (section 4.3).  Load the active rules for the event type,
run every rule recording one execution each, then finalize attempt and
event. -/
def processClaimedEvent (env : ActionEnv)
    (evalC : Json → Json → Except String Bool) (now : Nat)
    (claim : Event × Nat) (s : Store) : Store :=
  let rules := loadRulesForEvent s claim.1.type
  let out := runRules env evalC now claim.2 claim.1.id claim.1.payload s rules
  finalizePass now claim.2 claim.1.id out.2 out.1

/-! ## Reachability and the lease invariant -/

/-- The per-event invariant: processing_started_at is non-null exactly in
state processing. -/
def EventInv (s : Store) : Prop :=
  ∀ e ∈ s.events, e.processing_started_at.isSome = true ↔ e.state = .processing

/-- Stores reachable from the empty store through the event-touching
operations of the backend (ingest, claim, process, replay single and
batch, stuck recovery) and rule updates. -/
inductive Reachable : Store → Prop where
  | init : Reachable Store.empty
  | ingest (now : Nat) (p : EventCreatePayload) (s : Store) :
      Reachable s → Reachable (EventService.create now p s).2
  | claim (now : Nat) (s : Store) :
      Reachable s → Reachable (claimNextEvent now s).2
  | process (env : ActionEnv) (evalC : Json → Json → Except String Bool)
      (now : Nat) (claim : Event × Nat) (s : Store) :
      Reachable s → Reachable (processClaimedEvent env evalC now claim s)
  | replay (now eventId : Nat) (s : Store) :
      Reachable s → Reachable (ReplayService.replayEvent now eventId s).2
  | replayBatchStep (now : Nat) (ids : List Nat) (s : Store) :
      Reachable s → Reachable (ReplayService.replayBatch now ids s).2
  | requeue (now timeoutSeconds : Nat) (s : Store) :
      Reachable s → Reachable (EventService.requeueStuck now timeoutSeconds s).2
  | ruleUpdateStep (now ruleId : Nat) (p : RuleUpdatePayload) (s s' : Store) :
      Reachable s → RuleService.update now ruleId p s = .ok s' → Reachable s'

/-! ## Concrete fixtures

Small closed instances used to evaluate the theorems on concrete inputs:
a condition that evaluates to true, sample events, rules, versions and
stores mirroring the seed scenarios of the test suite.
-/

def evalTrue : Json → Json → Except String Bool := fun _ _ => .ok true

def envLogOnly : ActionEnv :=
  { emailLogMode := false, webhookResult := fun _ _ => .ok () }

def envFail500 : ActionEnv :=
  { emailLogMode := false
    webhookResult := fun _ _ =>
      .error "Webhook failed with status 500 Internal Server Error" }

def condTrue : Json :=
  .jobj (.cons "==" (.jarr (.cons (.jnum 1) (.cons (.jnum 1) .nil))) .nil)

def payloadPaid : Json := .jobj (.cons "status" (.jstr "paid") .nil)

def emailAction : RuleAction :=
  .send_email "user@example.com" "Welcome!" "welcome"

def evR : Event :=
  { id := 1, external_id := "evt-replay", type := "user.created"
    payload := payloadPaid, state := .pending, received_count := 1
    created_at := 0, processing_started_at := none
    processed_at := some 2, replayed_at := some 3 }

def attR1 : EventAttempt :=
  { id := 1, event_id := 1, status := some .success, error := none
    started_at := 1, finished_at := some 2, duration_ms := some 1 }

def ruleR : Rule :=
  { id := 1, name := "welcome email", event_type := "user.created"
    active := true, current_version_id := some 1
    created_at := 0, updated_at := 0 }

def verR : RuleVersion :=
  { id := 1, rule_id := 1, condition := condTrue, action := emailAction
    version := 1, created_at := 0 }

def execR1 : RuleExecution :=
  { id := 1, attempt_id := 1, rule_id := 1, rule_version_id := 1
    result := .applied, error := none, executed_at := 2 }

def storeR : Store :=
  { events := [evR], attempts := [attR1], rules := [ruleR]
    ruleVersions := [verR], ruleExecutions := [execR1]
    nextEventId := 2, nextAttemptId := 2, nextVersionId := 2, nextExecId := 2 }

def rowR : RuleRow :=
  { rule_id := 1, rule_name := "welcome email", rule_version_id := 1
    rule_version := 1, condition := condTrue, action := emailAction }

def evP : Event :=
  { id := 1, external_id := "evt-success", type := "order.created"
    payload := payloadPaid, state := .processing, received_count := 1
    created_at := 0, processing_started_at := some 1
    processed_at := none, replayed_at := none }

def attP : EventAttempt :=
  { id := 1, event_id := 1, status := none, error := none
    started_at := 1, finished_at := none, duration_ms := none }

def ruleLog : Rule :=
  { id := 1, name := "log paid orders", event_type := "order.created"
    active := true, current_version_id := some 1
    created_at := 0, updated_at := 0 }

def verLog : RuleVersion :=
  { id := 1, rule_id := 1, condition := condTrue
    action := .log "info" "ok", version := 1, created_at := 0 }

def storeP : Store :=
  { events := [evP], attempts := [attP], rules := [ruleLog]
    ruleVersions := [verLog], ruleExecutions := []
    nextEventId := 2, nextAttemptId := 2, nextVersionId := 2, nextExecId := 1 }

def ruleWeb : Rule :=
  { id := 2, name := "failing webhook", event_type := "order.created"
    active := true, current_version_id := some 2
    created_at := 0, updated_at := 0 }

def verWeb : RuleVersion :=
  { id := 2, rule_id := 2, condition := condTrue
    action := .call_webhook "http://127.0.0.1:9" "POST"
    version := 1, created_at := 0 }

def ruleLog2 : Rule :=
  { id := 3, name := "second log", event_type := "order.created"
    active := true, current_version_id := some 3
    created_at := 0, updated_at := 0 }

def verLog2 : RuleVersion :=
  { id := 3, rule_id := 3, condition := condTrue
    action := .log "info" "again", version := 1, created_at := 0 }

def storeS7 : Store :=
  { events := [evP], attempts := [attP]
    rules := [ruleLog, ruleWeb, ruleLog2]
    ruleVersions := [verLog, verWeb, verLog2], ruleExecutions := []
    nextEventId := 2, nextAttemptId := 2, nextVersionId := 4, nextExecId := 1 }

def ruleOrphan : Rule :=
  { id := 1, name := "orphan", event_type := "order.created"
    active := true, current_version_id := none
    created_at := 0, updated_at := 0 }

def storeOrphan : Store :=
  { events := [evP], attempts := [attP], rules := [ruleOrphan]
    ruleVersions := [], ruleExecutions := []
    nextEventId := 2, nextAttemptId := 2, nextVersionId := 1, nextExecId := 1 }

def payloadFoo1 : Json := .jobj (.cons "foo" (.jnum 1) .nil)

def payloadFoo999 : Json := .jobj (.cons "foo" (.jnum 999) .nil)

def evDup : Event :=
  { id := 1, external_id := "dup-1", type := "order.created"
    payload := payloadFoo1, state := .pending, received_count := 1
    created_at := 0, processing_started_at := none
    processed_at := none, replayed_at := none }

def storeDup : Store :=
  { events := [evDup], attempts := [], rules := [], ruleVersions := []
    ruleExecutions := []
    nextEventId := 2, nextAttemptId := 1, nextVersionId := 1, nextExecId := 1 }

def payloadDup : EventCreatePayload :=
  { id := "dup-1", type := "order.created", data := payloadFoo999 }

def evTerm : Event :=
  { id := 1, external_id := "evt-replay-1", type := "order.created"
    payload := payloadPaid, state := .processed, received_count := 1
    created_at := 0, processing_started_at := none
    processed_at := some 2, replayed_at := none }

def storeTerm : Store :=
  { events := [evTerm], attempts := [], rules := [], ruleVersions := []
    ruleExecutions := []
    nextEventId := 2, nextAttemptId := 1, nextVersionId := 1, nextExecId := 1 }

def payloadC2 : EventCreatePayload :=
  { id := "e1", type := "t", data := .jnull }

def storeC2 : Store := (EventService.create 0 payloadC2 Store.empty).2

def evC2Claimed : Event :=
  { id := 1, external_id := "e1", type := "t", payload := .jnull
    state := .processing, received_count := 1, created_at := 0
    processing_started_at := some 3, processed_at := none, replayed_at := none }

def ruleUpd : Rule :=
  { id := 1, name := "rule v1", event_type := "signup", active := true
    current_version_id := some 1, created_at := 0, updated_at := 0 }

def verUpd : RuleVersion :=
  { id := 1, rule_id := 1, condition := condTrue, action := .noop
    version := 1, created_at := 0 }

def storeUpd : Store :=
  { events := [], attempts := [], rules := [ruleUpd], ruleVersions := [verUpd]
    ruleExecutions := []
    nextEventId := 1, nextAttemptId := 1, nextVersionId := 2, nextExecId := 1 }

/-- An update payload whose condition equals the current version's
condition and whose action is absent. -/
def payloadSameCond : RuleUpdatePayload :=
  { name := none, event_type := none, condition := some condTrue
    action := none, active := none }

/-- A metadata-only update payload. -/
def payloadMetaOnly : RuleUpdatePayload :=
  { name := some "renamed", event_type := none, condition := none
    action := none, active := none }

/-- Projection used to observe a rule update result: the number of stored
rule versions after a successful update. -/
def updatedVersionCount (res : Except SvcError Store) : Option Nat :=
  match res with
  | .ok s' => some s'.ruleVersions.length
  | .error _ => none

/-- A right-nested chain of singleton arrays of the given depth. -/
def deepJson : Nat → Json
  | 0 => .jnum 1
  | n + 1 => .jarr (.cons (deepJson n) .nil)

def repeatJson : Nat → Json → JsonList
  | 0, _ => .nil
  | n + 1, v => .cons v (repeatJson n v)

/-- An and-expression over 51 var-operators: 52 operators in total at
nesting depth 3. -/
def wideJson : Json :=
  .jobj (.cons "and"
    (.jarr (repeatJson 51 (.jobj (.cons "var" (.jstr "x") .nil)))) .nil)

/-! ## Lemmas about the condition validator -/

mutual
theorem vd_ok : ∀ (v : Json) (d : Nat),
    validateDepth v d = none ↔ d + jsonDepth v ≤ 10
  | .jnull, d => by simp [validateDepth, jsonDepth]
  | .jbool b, d => by simp [validateDepth, jsonDepth]
  | .jnum n, d => by simp [validateDepth, jsonDepth]
  | .jstr s, d => by simp [validateDepth, jsonDepth]
  | .jarr xs, d => by
      simp only [validateDepth, jsonDepth]
      by_cases h : d > 10
      · simp only [h, if_true]
        constructor
        · intro hc; exact Option.noConfusion hc
        · omega
      · simp only [h, if_false]
        rw [vd_ok_list xs (d + 1) (by omega)]
        omega
  | .jobj fs, d => by
      simp only [validateDepth, jsonDepth]
      by_cases h : d > 10
      · simp only [h, if_true]
        constructor
        · intro hc; exact Option.noConfusion hc
        · omega
      · simp only [h, if_false]
        rw [vd_ok_obj fs (d + 1) (by omega)]
        omega

theorem vd_ok_list : ∀ (xs : JsonList) (d : Nat), d ≤ 11 →
    (validateDepthList xs d = none ↔ d + jsonDepthList xs ≤ 11)
  | .nil, d, hd => by simp [validateDepthList, jsonDepthList]; omega
  | .cons x t, d, hd => by
      simp only [validateDepthList, jsonDepthList]
      rcases h : validateDepth x d with _ | e
      · rw [vd_ok x d] at h
        rw [vd_ok_list t d hd]
        omega
      · constructor
        · intro hc; exact Option.noConfusion hc
        · intro hle
          have h2 : validateDepth x d = none := by rw [vd_ok x d]; omega
          rw [h] at h2
          exact Option.noConfusion h2

theorem vd_ok_obj : ∀ (fs : JsonObj) (d : Nat), d ≤ 11 →
    (validateDepthObj fs d = none ↔ d + jsonDepthObj fs ≤ 11)
  | .nil, d, hd => by simp [validateDepthObj, jsonDepthObj]; omega
  | .cons k v t, d, hd => by
      simp only [validateDepthObj, jsonDepthObj]
      rcases h : validateDepth v d with _ | e
      · rw [vd_ok v d] at h
        rw [vd_ok_obj t d hd]
        omega
      · constructor
        · intro hc; exact Option.noConfusion hc
        · intro hle
          have h2 : validateDepth v d = none := by rw [vd_ok v d]; omega
          rw [h] at h2
          exact Option.noConfusion h2
end

mutual
theorem validateDepth_const : ∀ (v : Json) (d : Nat),
    validateDepth v d = none ∨ validateDepth v d = some depthErrMsg
  | .jnull, d => by
      simp only [validateDepth]
      by_cases h : d > 10 <;> simp [h]
  | .jbool b, d => by
      simp only [validateDepth]
      by_cases h : d > 10 <;> simp [h]
  | .jnum n, d => by
      simp only [validateDepth]
      by_cases h : d > 10 <;> simp [h]
  | .jstr s, d => by
      simp only [validateDepth]
      by_cases h : d > 10 <;> simp [h]
  | .jarr xs, d => by
      simp only [validateDepth]
      by_cases h : d > 10
      · simp [h]
      · simp only [h, if_false]
        exact validateDepthList_const xs (d + 1)
  | .jobj fs, d => by
      simp only [validateDepth]
      by_cases h : d > 10
      · simp [h]
      · simp only [h, if_false]
        exact validateDepthObj_const fs (d + 1)

theorem validateDepthList_const : ∀ (xs : JsonList) (d : Nat),
    validateDepthList xs d = none ∨ validateDepthList xs d = some depthErrMsg
  | .nil, d => by simp [validateDepthList]
  | .cons x t, d => by
      simp only [validateDepthList]
      rcases validateDepth_const x d with h | h <;> rw [h]
      · exact validateDepthList_const t d
      · right; rfl

theorem validateDepthObj_const : ∀ (fs : JsonObj) (d : Nat),
    validateDepthObj fs d = none ∨ validateDepthObj fs d = some depthErrMsg
  | .nil, d => by simp [validateDepthObj]
  | .cons k v t, d => by
      simp only [validateDepthObj]
      rcases validateDepth_const v d with h | h <;> rw [h]
      · exact validateDepthObj_const t d
      · right; rfl
end

theorem vjlc_depth_high (c : Json) (h : 10 < jsonDepth c) :
    validateJsonLogicCondition c = some depthErrMsg := by
  have h1 : validateDepth c 0 ≠ none := by
    intro hnone
    rw [vd_ok] at hnone
    omega
  rcases validateDepth_const c 0 with h2 | h2
  · exact absurd h2 h1
  · simp [validateJsonLogicCondition, h2]

theorem vjlc_count_high (c : Json) (h1 : jsonDepth c ≤ 10)
    (h2 : 50 < countOperators c) :
    validateJsonLogicCondition c = some (countErrMsg (countOperators c)) := by
  have hd : validateDepth c 0 = none := by rw [vd_ok]; omega
  simp only [validateJsonLogicCondition, hd]
  rw [if_pos h2]

theorem vjlc_within (c : Json) (h1 : jsonDepth c ≤ 10)
    (h2 : countOperators c ≤ 50) :
    validateJsonLogicCondition c = validateNode c true := by
  have hd : validateDepth c 0 = none := by rw [vd_ok]; omega
  simp only [validateJsonLogicCondition, hd]
  rw [if_neg (by omega)]

theorem vjlc_none_node (c : Json) (h : validateJsonLogicCondition c = none) :
    validateNode c true = none := by
  rcases h3 : validateDepth c 0 with _ | e
  · simp only [validateJsonLogicCondition, h3] at h
    by_cases h4 : countOperators c > 50
    · rw [if_pos h4] at h
      exact Option.noConfusion h
    · rwa [if_neg h4] at h
  · simp [validateJsonLogicCondition, h3] at h

theorem vjlc_reject_accepts (c : Json)
    (h : 10 < jsonDepth c ∨ 50 < countOperators c) :
    jsonLogicSchemaAccepts c = false := by
  have hv : validateJsonLogicCondition c ≠ none := by
    by_cases hd : 10 < jsonDepth c
    · rw [vjlc_depth_high c hd]; exact Option.noConfusion
    · have hc : 50 < countOperators c := by tauto
      rw [vjlc_count_high c (by omega) hc]
      exact Option.noConfusion
  rcases h5 : validateJsonLogicCondition c with _ | e
  · exact absurd h5 hv
  · simp [jsonLogicSchemaAccepts, h5]

/-- C9: a condition of nesting depth above 10 is rejected with the depth
error; one within the depth limit but with more than 50 operators is
rejected with the operator-count error; within both limits the validator
returns exactly the structural check, so neither limit rejects it; and a
condition over either limit is rejected by the create/update boundary
schema. -/
theorem spec2proof_C9 (c : Json) :
    (10 < jsonDepth c → validateJsonLogicCondition c = some depthErrMsg)
    ∧ (jsonDepth c ≤ 10 → 50 < countOperators c →
        validateJsonLogicCondition c = some (countErrMsg (countOperators c)))
    ∧ (jsonDepth c ≤ 10 → countOperators c ≤ 50 →
        validateJsonLogicCondition c = validateNode c true)
    ∧ (10 < jsonDepth c ∨ 50 < countOperators c →
        jsonLogicSchemaAccepts c = false) :=
  ⟨vjlc_depth_high c, vjlc_count_high c, vjlc_within c, vjlc_reject_accepts c⟩

theorem spec2proof_C9_witness :
    (10 < jsonDepth (deepJson 11)
      ∧ validateJsonLogicCondition (deepJson 11) = some depthErrMsg)
    ∧ (jsonDepth wideJson ≤ 10 ∧ 50 < countOperators wideJson
      ∧ validateJsonLogicCondition wideJson
          = some (countErrMsg (countOperators wideJson)))
    ∧ (jsonDepth condTrue ≤ 10 ∧ countOperators condTrue ≤ 50
      ∧ validateJsonLogicCondition condTrue = validateNode condTrue true)
    ∧ jsonLogicSchemaAccepts (deepJson 11) = false :=
  ⟨⟨by decide, (spec2proof_C9 (deepJson 11)).1 (by decide)⟩,
   ⟨by decide, by decide,
    (spec2proof_C9 wideJson).2.1 (by decide) (by decide)⟩,
   ⟨by decide, by decide,
    (spec2proof_C9 condTrue).2.2.1 (by decide) (by decide)⟩,
   (spec2proof_C9 (deepJson 11)).2.2.2 (Or.inl (by decide))⟩

/-- C8: the create/update boundary rejects a condition whose root is a
bare boolean, number or string or an array, and any condition it accepts
has an operator-object root: a single-key object whose key is in the
allowed operator set. -/
theorem spec2proof_C8 (c : Json) :
    ((∃ b, c = Json.jbool b) ∨ (∃ n, c = Json.jnum n)
        ∨ (∃ s, c = Json.jstr s) ∨ (∃ xs, c = Json.jarr xs) →
      jsonLogicSchemaAccepts c = false)
    ∧ (jsonLogicSchemaAccepts c = true →
      ∃ k v, c = Json.jobj (JsonObj.cons k v JsonObj.nil)
        ∧ isAllowedOperator k = true) := by
  constructor
  · rintro (⟨b, rfl⟩ | ⟨n, rfl⟩ | ⟨s, rfl⟩ | ⟨xs, rfl⟩)
    · simp [jsonLogicSchemaAccepts, isArrayJson, isPlainObjectJson]
    · simp [jsonLogicSchemaAccepts, isArrayJson, isPlainObjectJson]
    · simp [jsonLogicSchemaAccepts, isArrayJson, isPlainObjectJson]
    · have hv : validateJsonLogicCondition (Json.jarr xs) ≠ none := by
        intro h
        have h2 := vjlc_none_node _ h
        have h3 : validateNode (Json.jarr xs) true = some rootErrMsg := rfl
        rw [h2] at h3
        exact Option.noConfusion h3
      rcases h5 : validateJsonLogicCondition (Json.jarr xs) with _ | e
      · exact absurd h5 hv
      · simp [jsonLogicSchemaAccepts, h5]
  · intro h
    simp only [jsonLogicSchemaAccepts, Bool.and_eq_true, Bool.or_eq_true,
      beq_iff_eq] at h
    obtain ⟨⟨_, hshape⟩, hval⟩ := h
    have hnode := vjlc_none_node c hval
    cases c with
    | jnull => simp [isArrayJson, isPlainObjectJson] at hshape
    | jbool b => simp [isArrayJson, isPlainObjectJson] at hshape
    | jnum n => simp [isArrayJson, isPlainObjectJson] at hshape
    | jstr s => simp [isArrayJson, isPlainObjectJson] at hshape
    | jarr xs =>
        have h3 : validateNode (Json.jarr xs) true = some rootErrMsg := rfl
        rw [hnode] at h3
        exact Option.noConfusion h3
    | jobj fs =>
        cases fs with
        | nil =>
            have h3 : validateNode (Json.jobj JsonObj.nil) true
                = some rootErrMsg := rfl
            rw [hnode] at h3
            exact Option.noConfusion h3
        | cons k v t =>
            cases t with
            | nil =>
                by_cases h5 : isAllowedOperator k
                · exact ⟨k, v, rfl, h5⟩
                · have h3 : validateNode (Json.jobj (JsonObj.cons k v JsonObj.nil)) true
                      = if isAllowedOperator k then validateNode v false
                        else some ("Operator not allowed: " ++ k) := rfl
                  rw [hnode, if_neg h5] at h3
                  exact Option.noConfusion h3
            | cons k' v' t' =>
                have h3 : validateNode
                    (Json.jobj (JsonObj.cons k v (JsonObj.cons k' v' t'))) true
                    = some rootErrMsg := rfl
                rw [hnode] at h3
                exact Option.noConfusion h3

theorem spec2proof_C8_witness :
    jsonLogicSchemaAccepts (Json.jstr "x") = false
    ∧ jsonLogicSchemaAccepts (Json.jnum 3) = false
    ∧ jsonLogicSchemaAccepts
        (Json.jarr (JsonList.cons (Json.jnum 1) JsonList.nil)) = false
    ∧ (∃ k v, condTrue = Json.jobj (JsonObj.cons k v JsonObj.nil)
        ∧ isAllowedOperator k = true) :=
  ⟨(spec2proof_C8 _).1 (Or.inr (Or.inr (Or.inl ⟨"x", rfl⟩))),
   (spec2proof_C8 _).1 (Or.inr (Or.inl ⟨3, rfl⟩)),
   (spec2proof_C8 _).1 (Or.inr (Or.inr (Or.inr ⟨_, rfl⟩))),
   (spec2proof_C8 condTrue).2 (by decide)⟩

/-! ## Lemmas about rule loading and the claim query -/

theorem mem_insertRowById (x y : RuleRow) :
    ∀ l : List RuleRow, y ∈ insertRowById x l ↔ y = x ∨ y ∈ l
  | [] => by simp [insertRowById]
  | z :: zs => by
      simp only [insertRowById]
      by_cases h : x.rule_id ≤ z.rule_id
      · simp only [if_pos h, List.mem_cons]
      · simp only [if_neg h, List.mem_cons, mem_insertRowById x y zs]
        tauto

theorem mem_sortRowsById (y : RuleRow) :
    ∀ l : List RuleRow, y ∈ sortRowsById l ↔ y ∈ l
  | [] => by simp [sortRowsById]
  | z :: zs => by
      have ih := mem_sortRowsById y zs
      simp only [sortRowsById, List.foldr] at ih ⊢
      rw [mem_insertRowById]
      simp only [List.mem_cons, ih]

theorem loadRules_sound (s : Store) (ty : String) (row : RuleRow)
    (h : row ∈ loadRulesForEvent s ty) :
    ∃ r ∈ s.rules, r.id = row.rule_id ∧ r.active = true ∧ r.event_type = ty
      ∧ r.current_version_id = some row.rule_version_id := by
  unfold loadRulesForEvent at h
  rw [mem_sortRowsById, List.mem_filterMap] at h
  obtain ⟨r, hr, hf⟩ := h
  by_cases hc : (r.active && (r.event_type == ty)) = true
  · rw [if_pos hc] at hf
    obtain ⟨hact, hty⟩ : r.active = true ∧ r.event_type = ty := by
      simpa [Bool.and_eq_true] using hc
    split at hf
    next vid heqv =>
      split at hf
      next v hfind =>
        have hrow := Option.some.inj hf
        have hvid : v.id = vid := by
          have := List.find?_some hfind
          simpa using this
        refine ⟨r, hr, ?_, hact, hty, ?_⟩
        · rw [← hrow]
        · rw [← hrow, heqv, hvid]
      next => exact absurd hf (by simp)
    next => exact absurd hf (by simp)
  · rw [if_neg hc] at hf
    exact absurd hf (by simp)

theorem loadRules_nil (s : Store) (ty : String)
    (h : ∀ r ∈ s.rules, r.active = true → r.event_type = ty →
      r.current_version_id = none) :
    loadRulesForEvent s ty = [] := by
  rw [List.eq_nil_iff_forall_not_mem]
  intro row hrow
  obtain ⟨r, hr, _, hact, hty, hcv⟩ := loadRules_sound s ty row hrow
  rw [h r hr hact hty] at hcv
  exact Option.noConfusion hcv

theorem foldl_pickOlder_mem :
    ∀ (l : List Event) (acc : Option Event) (x : Event),
      l.foldl pickOlder acc = some x → x ∈ l ∨ acc = some x
  | [], _, _ => fun h => Or.inr h
  | e :: t, acc, x => fun h => by
      rcases foldl_pickOlder_mem t (pickOlder acc e) x h with h1 | h1
      · exact Or.inl (List.mem_cons_of_mem _ h1)
      · unfold pickOlder at h1
        split at h1
        · left
          rw [List.mem_cons]
          left
          exact (Option.some.inj h1).symm
        · split at h1
          · left
            rw [List.mem_cons]
            left
            exact (Option.some.inj h1).symm
          · exact Or.inr h1

theorem oldestPending_mem (events : List Event) (x : Event)
    (h : oldestPending events = some x) : x ∈ events ∧ x.state = .pending := by
  unfold oldestPending at h
  rcases foldl_pickOlder_mem _ _ _ h with h1 | h1
  · rw [List.mem_filter] at h1
    exact ⟨h1.1, by simpa using h1.2⟩
  · exact absurd h1 (by simp)

/-! ## Lemmas about the processing pass -/

theorem executeAction_idem (env : ActionEnv) (a : RuleAction)
    (h : isIdempotentAction a = true) : executeAction env a = .ok () := by
  cases a with
  | log level message => rfl
  | noop => rfl
  | call_webhook url method => exact absurd h (by simp [isIdempotentAction])
  | send_email to_ subject template =>
      exact absurd h (by simp [isIdempotentAction])

theorem ruleOutcome_failed_iff (env : ActionEnv)
    (evalC : Json → Json → Except String Bool) (s : Store) (eid : Nat)
    (payload : Json) (r : RuleRow) :
    ((ruleOutcome env evalC s eid payload r).1 = .failed
      ↔ (ruleOutcome env evalC s eid payload r).2 ≠ none) := by
  unfold ruleOutcome
  rcases hev : evalC r.condition payload with m | b
  · simp
  · rcases b with _ | _
    · simp
    · by_cases hd :
        (!(isIdempotentAction r.action)
          && dedupHolds s eid r.rule_version_id) = true
      · rw [if_pos hd]
        simp
      · rw [if_neg hd]
        rcases hx : executeAction env r.action with m | u
        · simp
        · simp

theorem dedup_of_prior (s : Store) (eid vid : Nat)
    (h : ∃ x ∈ s.ruleExecutions, x.rule_version_id = vid
        ∧ (x.result = .applied ∨ x.result = .deduped)
        ∧ ∃ a ∈ s.attempts, a.id = x.attempt_id ∧ a.event_id = eid) :
    dedupHolds s eid vid = true := by
  obtain ⟨x, hx, hv, hr, a, ha, hai, hae⟩ := h
  unfold dedupHolds
  rw [List.any_eq_true]
  refine ⟨x, hx, ?_⟩
  have hinner : s.attempts.any (fun a => a.id == x.attempt_id
      && a.event_id == eid) = true := by
    rw [List.any_eq_true]
    exact ⟨a, ha, by simp [hai, hae]⟩
  rcases hr with hr | hr <;> simp [hv, hr, hinner]

theorem dedup_mono (s s' : Store) (eid vid : Nat)
    (hatt : s'.attempts = s.attempts)
    (hex : ∃ t, s'.ruleExecutions = s.ruleExecutions ++ t)
    (h : dedupHolds s eid vid = true) : dedupHolds s' eid vid = true := by
  obtain ⟨t, ht⟩ := hex
  unfold dedupHolds at h ⊢
  rw [List.any_eq_true] at h ⊢
  obtain ⟨x, hx, hp⟩ := h
  refine ⟨x, by rw [ht]; exact List.mem_append_left _ hx, ?_⟩
  rwa [hatt]

theorem runRules_spec (env : ActionEnv)
    (evalC : Json → Json → Except String Bool) (now aid eid : Nat)
    (payload : Json) :
    ∀ (rules : List RuleRow) (s : Store),
      (runRules env evalC now aid eid payload s rules).1.events = s.events
      ∧ (runRules env evalC now aid eid payload s rules).1.attempts = s.attempts
      ∧ (runRules env evalC now aid eid payload s rules).1.rules = s.rules
      ∧ (runRules env evalC now aid eid payload s rules).1.ruleVersions
          = s.ruleVersions
      ∧ ∃ new : List RuleExecution,
          (runRules env evalC now aid eid payload s rules).1.ruleExecutions
            = s.ruleExecutions ++ new
          ∧ new.map (fun x => (x.attempt_id, x.rule_id, x.rule_version_id))
              = rules.map (fun r => (aid, r.rule_id, r.rule_version_id))
          ∧ (∀ x ∈ new, (x.result = .failed ↔ x.error ≠ none))
          ∧ (runRules env evalC now aid eid payload s rules).2
              = new.filterMap (fun x => x.error)
  | [], s => by
      refine ⟨rfl, rfl, rfl, rfl, [], by simp [runRules], by simp [runRules],
        by simp, by simp [runRules]⟩
  | r :: rest, s => by
      obtain ⟨h1, h2, h3, h4, new, h5, h6, h7, h8⟩ :=
        runRules_spec env evalC now aid eid payload rest
          (stepStore env evalC now aid eid payload s r)
      refine ⟨h1, h2, h3, h4,
        execRowOf env evalC now aid eid payload s r :: new, ?_, ?_, ?_, ?_⟩
      · show (runRules env evalC now aid eid payload
            (stepStore env evalC now aid eid payload s r) rest).1.ruleExecutions
            = _
        rw [h5]
        show (s.ruleExecutions ++ [execRowOf env evalC now aid eid payload s r])
            ++ new = _
        rw [List.append_assoc]
        rfl
      · simp only [List.map_cons, h6]
        rfl
      · intro x hx
        rcases List.mem_cons.mp hx with hx | hx
        · subst hx
          exact ruleOutcome_failed_iff env evalC s eid payload r
        · exact h7 x hx
      · show (match (ruleOutcome env evalC s eid payload r).2 with
            | some m => m :: (runRules env evalC now aid eid payload
                (stepStore env evalC now aid eid payload s r) rest).2
            | none => (runRules env evalC now aid eid payload
                (stepStore env evalC now aid eid payload s r) rest).2) = _
        have hrow : (execRowOf env evalC now aid eid payload s r).error
            = (ruleOutcome env evalC s eid payload r).2 := rfl
        rcases ho : (ruleOutcome env evalC s eid payload r).2 with _ | m <;>
          simp only [ho, h8, List.filterMap_cons, hrow]

theorem runRules_vid (env : ActionEnv)
    (evalC : Json → Json → Except String Bool) (now aid eid : Nat)
    (payload : Json) (s0 : Store) (vid : Nat)
    (out : RuleExecutionResult × Option String) :
    ∀ (rules : List RuleRow) (s : Store),
      s.attempts = s0.attempts →
      (∃ t, s.ruleExecutions = s0.ruleExecutions ++ t) →
      (∀ r' ∈ rules, r'.rule_version_id = vid →
        ∀ s' : Store, s'.attempts = s0.attempts →
          (∃ t, s'.ruleExecutions = s0.ruleExecutions ++ t) →
          ruleOutcome env evalC s' eid payload r' = out) →
      ∀ new : List RuleExecution,
        (runRules env evalC now aid eid payload s rules).1.ruleExecutions
          = s.ruleExecutions ++ new →
        ∀ x ∈ new, x.rule_version_id = vid →
          x.result = out.1 ∧ x.error = out.2
  | [], s => by
      intro _ _ _ new heq x hx _
      have heq2 : s.ruleExecutions = s.ruleExecutions ++ new := heq
      have hnil : new = [] := by
        have hlen := congrArg List.length heq2
        rw [List.length_append] at hlen
        have hz : new.length = 0 := by omega
        exact List.length_eq_zero.mp hz
      subst hnil
      exact absurd hx (List.not_mem_nil x)
  | r :: rest, s => by
      intro hatt hext hall new heq x hx hv
      obtain ⟨_, _, _, _, new2, h5, h6, h7, h8⟩ :=
        runRules_spec env evalC now aid eid payload rest
          (stepStore env evalC now aid eid payload s r)
      have heq2 : (runRules env evalC now aid eid payload s
          (r :: rest)).1.ruleExecutions
          = s.ruleExecutions
            ++ (execRowOf env evalC now aid eid payload s r :: new2) := by
        show (runRules env evalC now aid eid payload
            (stepStore env evalC now aid eid payload s r) rest).1.ruleExecutions
            = _
        rw [h5]
        show (s.ruleExecutions ++ [execRowOf env evalC now aid eid payload s r])
            ++ new2 = _
        rw [List.append_assoc]
        rfl
      have hnew : new = execRowOf env evalC now aid eid payload s r :: new2 :=
        List.append_cancel_left (heq.symm.trans heq2)
      subst hnew
      rcases List.mem_cons.mp hx with hx | hx
      · subst hx
        have hrv : r.rule_version_id = vid := hv
        have hout := hall r (List.mem_cons_self r rest) hrv s hatt hext
        constructor
        · show (ruleOutcome env evalC s eid payload r).1 = out.1
          rw [hout]
        · show (ruleOutcome env evalC s eid payload r).2 = out.2
          rw [hout]
      · refine runRules_vid env evalC now aid eid payload s0 vid out rest
          (stepStore env evalC now aid eid payload s r) hatt ?_ ?_ new2 h5 x hx hv
        · obtain ⟨t, ht⟩ := hext
          refine ⟨t ++ [execRowOf env evalC now aid eid payload s r], ?_⟩
          show s.ruleExecutions ++ [execRowOf env evalC now aid eid payload s r]
              = s0.ruleExecutions ++ (t ++ [execRowOf env evalC now aid eid payload s r])
          rw [ht, List.append_assoc]
        · intro r' hr' hvr' s' hs1 hs2
          exact hall r' (List.mem_cons_of_mem _ hr') hvr' s' hs1 hs2

theorem process_spec (env : ActionEnv)
    (evalC : Json → Json → Except String Bool) (now : Nat) (s : Store)
    (e : Event) (aid : Nat)
    (hfresh : ∀ x ∈ s.ruleExecutions, x.attempt_id ≠ aid) :
    ∃ new : List RuleExecution,
      (processClaimedEvent env evalC now (e, aid) s).ruleExecutions
        = s.ruleExecutions ++ new
      ∧ new.map (fun x => (x.attempt_id, x.rule_id, x.rule_version_id))
          = (loadRulesForEvent s e.type).map
              (fun r => (aid, r.rule_id, r.rule_version_id))
      ∧ (∀ x ∈ new, x.attempt_id = aid)
      ∧ (∀ x ∈ new, (x.result = .failed ↔ x.error ≠ none))
      ∧ (processClaimedEvent env evalC now (e, aid) s).ruleExecutions.filter
            (fun x => x.attempt_id == aid) = new
      ∧ (∀ a ∈ s.attempts, a.id = aid →
          { a with
            status := some (if (new.filterMap (fun x => x.error)).isEmpty
                then AttemptStatus.success else AttemptStatus.failed)
            error := if (new.filterMap (fun x => x.error)).isEmpty then none
                else some (String.intercalate "\n"
                  (new.filterMap (fun x => x.error)))
            finished_at := some now
            duration_ms := some ((now : Int) - (a.started_at : Int)) }
            ∈ (processClaimedEvent env evalC now (e, aid) s).attempts)
      ∧ (∀ ev ∈ s.events, ev.id = e.id →
          { ev with
            state := if (new.filterMap (fun x => x.error)).isEmpty
                then EventState.processed else EventState.failed
            processed_at := some now
            processing_started_at := none }
            ∈ (processClaimedEvent env evalC now (e, aid) s).events) := by
  obtain ⟨h1, h2, h3, h4, new, h5, h6, h7, h8⟩ :=
    runRules_spec env evalC now aid e.id e.payload (loadRulesForEvent s e.type) s
  have hmemaid : ∀ x ∈ new, x.attempt_id = aid := by
    intro x hx
    have hmm : (x.attempt_id, x.rule_id, x.rule_version_id)
        ∈ new.map (fun x => (x.attempt_id, x.rule_id, x.rule_version_id)) :=
      List.mem_map_of_mem _ hx
    rw [h6] at hmm
    obtain ⟨r, _, hpr⟩ := List.mem_map.mp hmm
    have := congrArg Prod.fst hpr
    simpa using this.symm
  refine ⟨new, h5, h6, hmemaid, h7, ?_, ?_, ?_⟩
  · have hre : (processClaimedEvent env evalC now (e, aid) s).ruleExecutions
        = s.ruleExecutions ++ new := h5
    rw [hre, List.filter_append]
    have hl : s.ruleExecutions.filter (fun x => x.attempt_id == aid) = [] := by
      rw [List.filter_eq_nil_iff]
      intro x hx
      simp [hfresh x hx]
    have hr : new.filter (fun x => x.attempt_id == aid) = new := by
      rw [List.filter_eq_self]
      intro x hx
      simp [hmemaid x hx]
    rw [hl, hr]
    rfl
  · intro a ha hid
    have hfa : (processClaimedEvent env evalC now (e, aid) s).attempts
        = s.attempts.map (finalizeAttemptRow now aid
            (runRules env evalC now aid e.id e.payload s
              (loadRulesForEvent s e.type)).2) := by
      show ((runRules env evalC now aid e.id e.payload s
          (loadRulesForEvent s e.type)).1.attempts).map _ = _
      rw [h2]
    rw [hfa]
    refine List.mem_map.mpr ⟨a, ha, ?_⟩
    unfold finalizeAttemptRow
    rw [if_pos (by simp [hid])]
    simp only [h8]
  · intro ev hev hid
    have hfe : (processClaimedEvent env evalC now (e, aid) s).events
        = s.events.map (finalizeEventRow now e.id
            (runRules env evalC now aid e.id e.payload s
              (loadRulesForEvent s e.type)).2) := by
      show ((runRules env evalC now aid e.id e.payload s
          (loadRulesForEvent s e.type)).1.events).map _ = _
      rw [h1]
    rw [hfe]
    refine List.mem_map.mpr ⟨ev, hev, ?_⟩
    unfold finalizeEventRow
    rw [if_pos (by simp [hid])]
    simp only [h8]

/-- C1: when an event is processed again after a prior attempt whose
execution of the same rule version ended applied, the pass records the
new execution of that rule version as deduped when the action tag is
non-idempotent (call_webhook, send_email) and as applied (the action
runs again) when the tag is log or noop; in either case without an
error. -/
theorem spec2proof_C1 (env : ActionEnv)
    (evalC : Json → Json → Except String Bool) (now : Nat) (s : Store)
    (e : Event) (aid : Nat) (r : RuleRow)
    (hmem : r ∈ loadRulesForEvent s e.type)
    (huniq : ∀ r' ∈ loadRulesForEvent s e.type,
      r'.rule_version_id = r.rule_version_id → r' = r)
    (heval : evalC r.condition e.payload = .ok true)
    (hprior : ∃ x ∈ s.ruleExecutions, x.rule_version_id = r.rule_version_id
        ∧ x.result = .applied
        ∧ ∃ a ∈ s.attempts, a.id = x.attempt_id ∧ a.event_id = e.id)
    (hfresh : ∀ x ∈ s.ruleExecutions, x.attempt_id ≠ aid) :
    (∃ x ∈ (processClaimedEvent env evalC now (e, aid) s).ruleExecutions,
        x.attempt_id = aid ∧ x.rule_version_id = r.rule_version_id)
    ∧ (∀ x ∈ (processClaimedEvent env evalC now (e, aid) s).ruleExecutions,
        x.attempt_id = aid → x.rule_version_id = r.rule_version_id →
          x.result = (if isIdempotentAction r.action then .applied
              else RuleExecutionResult.deduped)
          ∧ x.error = none) := by
  obtain ⟨new, h5, h6, hmemaid, h7, hfil, _, _⟩ :=
    process_spec env evalC now s e aid hfresh
  have hstable : ∀ s' : Store, s'.attempts = s.attempts →
      (∃ t, s'.ruleExecutions = s.ruleExecutions ++ t) →
      ruleOutcome env evalC s' e.id e.payload r
        = (if isIdempotentAction r.action then .applied
            else RuleExecutionResult.deduped, none) := by
    intro s' hs1 hs2
    unfold ruleOutcome
    simp only [heval]
    by_cases hid : isIdempotentAction r.action
    · rw [if_neg (by simp [hid])]
      rw [executeAction_idem env r.action hid]
      simp [hid]
    · have hd : dedupHolds s' e.id r.rule_version_id = true := by
        refine dedup_mono s s' e.id r.rule_version_id hs1 hs2 ?_
        refine dedup_of_prior s e.id r.rule_version_id ?_
        obtain ⟨x, hx, hv, hres, ha⟩ := hprior
        exact ⟨x, hx, hv, Or.inl hres, ha⟩
      rw [if_pos (by simp [hid, hd])]
      simp [hid]
  constructor
  · have hproj : (aid, r.rule_id, r.rule_version_id)
        ∈ new.map (fun x => (x.attempt_id, x.rule_id, x.rule_version_id)) := by
      rw [h6]
      exact List.mem_map_of_mem _ hmem
    obtain ⟨x, hx, hpx⟩ := List.mem_map.mp hproj
    refine ⟨x, ?_, ?_, ?_⟩
    · rw [h5]
      exact List.mem_append_right _ hx
    · have := congrArg Prod.fst hpx
      simpa using this
    · have := congrArg (fun p : Nat × Nat × Nat => p.2.2) hpx
      simpa using this
  · intro x hx hxa hxv
    have hx' : x ∈ new := by
      rw [h5] at hx
      rcases List.mem_append.mp hx with hx | hx
      · exact absurd hxa (hfresh x hx)
      · exact hx
    have hall : ∀ r' ∈ loadRulesForEvent s e.type,
        r'.rule_version_id = r.rule_version_id →
        ∀ s' : Store, s'.attempts = s.attempts →
          (∃ t, s'.ruleExecutions = s.ruleExecutions ++ t) →
          ruleOutcome env evalC s' e.id e.payload r'
            = (if isIdempotentAction r.action then .applied
                else RuleExecutionResult.deduped, none) := by
      intro r' hr' hv' s' hs1 hs2
      rw [huniq r' hr' hv']
      exact hstable s' hs1 hs2
    have hout := runRules_vid env evalC now aid e.id e.payload s
      r.rule_version_id
      (if isIdempotentAction r.action then .applied
        else RuleExecutionResult.deduped, none)
      (loadRulesForEvent s e.type) s rfl ⟨[], (List.append_nil _).symm⟩
      hall new h5 x hx' hxv
    exact hout

theorem spec2proof_C1_witness :
    (∃ x ∈ (processClaimedEvent envLogOnly evalTrue 5 (evR, 2)
        storeR).ruleExecutions,
        x.attempt_id = 2 ∧ x.rule_version_id = rowR.rule_version_id)
    ∧ (∀ x ∈ (processClaimedEvent envLogOnly evalTrue 5 (evR, 2)
        storeR).ruleExecutions,
        x.attempt_id = 2 → x.rule_version_id = rowR.rule_version_id →
          x.result = (if isIdempotentAction rowR.action then .applied
              else RuleExecutionResult.deduped)
          ∧ x.error = none) :=
  spec2proof_C1 envLogOnly evalTrue 5 storeR evR 2 rowR (by decide)
    (by decide) rfl (by decide) (by decide)

/-- C3: the finalization of a processing pass, in one transaction, sets
the attempt to status failed with the newline-joined error list and the
event to failed when the per-rule error list is non-empty, and to
success and processed otherwise; in both branches it sets
finished_at = now, duration_ms = finished_at - started_at,
processed_at = now and clears processing_started_at.  The per-rule error
list is observed as the recorded failure messages of the attempt's
executions. -/
theorem spec2proof_C3 (env : ActionEnv)
    (evalC : Json → Json → Except String Bool) (now : Nat) (s : Store)
    (e : Event) (aid : Nat)
    (hfresh : ∀ x ∈ s.ruleExecutions, x.attempt_id ≠ aid) :
    (∀ a ∈ s.attempts, a.id = aid →
      { a with
        status := some (if (((processClaimedEvent env evalC now (e, aid)
              s).ruleExecutions.filter (fun x => x.attempt_id == aid)).filterMap
              (fun x => x.error)).isEmpty
            then AttemptStatus.success else AttemptStatus.failed)
        error := if (((processClaimedEvent env evalC now (e, aid)
              s).ruleExecutions.filter (fun x => x.attempt_id == aid)).filterMap
              (fun x => x.error)).isEmpty then none
            else some (String.intercalate "\n"
              (((processClaimedEvent env evalC now (e, aid)
                s).ruleExecutions.filter (fun x => x.attempt_id == aid)).filterMap
                (fun x => x.error)))
        finished_at := some now
        duration_ms := some ((now : Int) - (a.started_at : Int)) }
        ∈ (processClaimedEvent env evalC now (e, aid) s).attempts)
    ∧ (∀ ev ∈ s.events, ev.id = e.id →
      { ev with
        state := if (((processClaimedEvent env evalC now (e, aid)
              s).ruleExecutions.filter (fun x => x.attempt_id == aid)).filterMap
              (fun x => x.error)).isEmpty
            then EventState.processed else EventState.failed
        processed_at := some now
        processing_started_at := none }
        ∈ (processClaimedEvent env evalC now (e, aid) s).events) := by
  obtain ⟨new, h5, h6, hmemaid, h7, hfil, hatt, hev⟩ :=
    process_spec env evalC now s e aid hfresh
  rw [hfil]
  exact ⟨hatt, hev⟩

theorem spec2proof_C3_witness :
    (∀ a ∈ storeP.attempts, a.id = 1 →
      { a with
        status := some (if (((processClaimedEvent envLogOnly evalTrue 5 (evP, 1)
              storeP).ruleExecutions.filter (fun x => x.attempt_id == 1)).filterMap
              (fun x => x.error)).isEmpty
            then AttemptStatus.success else AttemptStatus.failed)
        error := if (((processClaimedEvent envLogOnly evalTrue 5 (evP, 1)
              storeP).ruleExecutions.filter (fun x => x.attempt_id == 1)).filterMap
              (fun x => x.error)).isEmpty then none
            else some (String.intercalate "\n"
              (((processClaimedEvent envLogOnly evalTrue 5 (evP, 1)
                storeP).ruleExecutions.filter (fun x => x.attempt_id == 1)).filterMap
                (fun x => x.error)))
        finished_at := some 5
        duration_ms := some ((5 : Int) - (a.started_at : Int)) }
        ∈ (processClaimedEvent envLogOnly evalTrue 5 (evP, 1) storeP).attempts)
    ∧ (∀ ev ∈ storeP.events, ev.id = evP.id →
      { ev with
        state := if (((processClaimedEvent envLogOnly evalTrue 5 (evP, 1)
              storeP).ruleExecutions.filter (fun x => x.attempt_id == 1)).filterMap
              (fun x => x.error)).isEmpty
            then EventState.processed else EventState.failed
        processed_at := some 5
        processing_started_at := none }
        ∈ (processClaimedEvent envLogOnly evalTrue 5 (evP, 1) storeP).events) :=
  spec2proof_C3 envLogOnly evalTrue 5 storeP evP 1 (by decide)

/-- C6: every rule of the loaded active-rule set gets exactly one rule
execution recorded, in order, whatever raises the condition oracle or
the action dispatch produce for the other rules; an execution is
recorded failed exactly when it carries a rendered error message, and
the attempt error becomes the newline-join of those messages. -/
theorem spec2proof_C6 (env : ActionEnv)
    (evalC : Json → Json → Except String Bool) (now : Nat) (s : Store)
    (e : Event) (aid : Nat)
    (hfresh : ∀ x ∈ s.ruleExecutions, x.attempt_id ≠ aid) :
    (((processClaimedEvent env evalC now (e, aid) s).ruleExecutions.filter
          (fun x => x.attempt_id == aid)).map
        (fun x => (x.rule_id, x.rule_version_id))
      = (loadRulesForEvent s e.type).map
          (fun r => (r.rule_id, r.rule_version_id)))
    ∧ (∀ x ∈ (processClaimedEvent env evalC now (e, aid)
          s).ruleExecutions.filter (fun x => x.attempt_id == aid),
        (x.result = .failed ↔ x.error ≠ none))
    ∧ (∀ a ∈ s.attempts, a.id = aid →
      { a with
        status := some (if (((processClaimedEvent env evalC now (e, aid)
              s).ruleExecutions.filter (fun x => x.attempt_id == aid)).filterMap
              (fun x => x.error)).isEmpty
            then AttemptStatus.success else AttemptStatus.failed)
        error := if (((processClaimedEvent env evalC now (e, aid)
              s).ruleExecutions.filter (fun x => x.attempt_id == aid)).filterMap
              (fun x => x.error)).isEmpty then none
            else some (String.intercalate "\n"
              (((processClaimedEvent env evalC now (e, aid)
                s).ruleExecutions.filter (fun x => x.attempt_id == aid)).filterMap
                (fun x => x.error)))
        finished_at := some now
        duration_ms := some ((now : Int) - (a.started_at : Int)) }
        ∈ (processClaimedEvent env evalC now (e, aid) s).attempts) := by
  obtain ⟨new, h5, h6, hmemaid, h7, hfil, hatt, hev⟩ :=
    process_spec env evalC now s e aid hfresh
  rw [hfil]
  refine ⟨?_, h7, hatt⟩
  have := congrArg (List.map (fun p : Nat × Nat × Nat => p.2)) h6
  rw [List.map_map, List.map_map] at this
  simpa [Function.comp] using this

theorem spec2proof_C6_witness :
    (((processClaimedEvent envFail500 evalTrue 5 (evP, 1)
          storeS7).ruleExecutions.filter
          (fun x => x.attempt_id == 1)).map
        (fun x => (x.rule_id, x.rule_version_id))
      = (loadRulesForEvent storeS7 evP.type).map
          (fun r => (r.rule_id, r.rule_version_id)))
    ∧ (∀ x ∈ (processClaimedEvent envFail500 evalTrue 5 (evP, 1)
          storeS7).ruleExecutions.filter (fun x => x.attempt_id == 1),
        (x.result = .failed ↔ x.error ≠ none))
    ∧ (∀ a ∈ storeS7.attempts, a.id = 1 →
      { a with
        status := some (if (((processClaimedEvent envFail500 evalTrue 5 (evP, 1)
              storeS7).ruleExecutions.filter (fun x => x.attempt_id == 1)).filterMap
              (fun x => x.error)).isEmpty
            then AttemptStatus.success else AttemptStatus.failed)
        error := if (((processClaimedEvent envFail500 evalTrue 5 (evP, 1)
              storeS7).ruleExecutions.filter (fun x => x.attempt_id == 1)).filterMap
              (fun x => x.error)).isEmpty then none
            else some (String.intercalate "\n"
              (((processClaimedEvent envFail500 evalTrue 5 (evP, 1)
                storeS7).ruleExecutions.filter (fun x => x.attempt_id == 1)).filterMap
                (fun x => x.error)))
        finished_at := some 5
        duration_ms := some ((5 : Int) - (a.started_at : Int)) }
        ∈ (processClaimedEvent envFail500 evalTrue 5 (evP, 1) storeS7).attempts) :=
  spec2proof_C6 envFail500 evalTrue 5 storeS7 evP 1 (by decide)

/-- C10: a rule whose current_version_id is null is silently excluded by
the inner join of the rule-loading query, and an event whose type
matches only such rules finalizes with zero rule executions recorded,
attempt status success and event state processed. -/
theorem spec2proof_C10 :
    (∀ (s : Store) (ty : String), ∀ row ∈ loadRulesForEvent s ty,
      ∃ r ∈ s.rules, r.id = row.rule_id ∧ r.active = true ∧ r.event_type = ty
        ∧ r.current_version_id = some row.rule_version_id)
    ∧ (∀ (env : ActionEnv) (evalC : Json → Json → Except String Bool)
        (now : Nat) (s : Store) (e : Event) (aid : Nat),
        (∀ r ∈ s.rules, r.active = true → r.event_type = e.type →
          r.current_version_id = none) →
        (∀ x ∈ s.ruleExecutions, x.attempt_id ≠ aid) →
        loadRulesForEvent s e.type = []
        ∧ (processClaimedEvent env evalC now (e, aid) s).ruleExecutions.filter
            (fun x => x.attempt_id == aid) = []
        ∧ (∀ a ∈ s.attempts, a.id = aid →
            { a with
              status := some AttemptStatus.success
              error := none
              finished_at := some now
              duration_ms := some ((now : Int) - (a.started_at : Int)) }
              ∈ (processClaimedEvent env evalC now (e, aid) s).attempts)
        ∧ (∀ ev ∈ s.events, ev.id = e.id →
            { ev with
              state := EventState.processed
              processed_at := some now
              processing_started_at := none }
              ∈ (processClaimedEvent env evalC now (e, aid) s).events)) := by
  constructor
  · intro s ty row hrow
    exact loadRules_sound s ty row hrow
  · intro env evalC now s e aid hmatch hfresh
    have hnil := loadRules_nil s e.type hmatch
    obtain ⟨new, h5, h6, hmemaid, h7, hfil, hatt, hev⟩ :=
      process_spec env evalC now s e aid hfresh
    have hnew : new = [] := by
      rw [hnil] at h6
      simpa using h6
    subst hnew
    refine ⟨hnil, hfil, ?_, ?_⟩
    · intro a ha hid
      simpa using hatt a ha hid
    · intro ev hev2 hid
      simpa using hev ev hev2 hid

theorem spec2proof_C10_witness :
    loadRulesForEvent storeOrphan evP.type = []
    ∧ (processClaimedEvent envLogOnly evalTrue 5 (evP, 1)
        storeOrphan).ruleExecutions.filter (fun x => x.attempt_id == 1) = []
    ∧ (∀ a ∈ storeOrphan.attempts, a.id = 1 →
        { a with
          status := some AttemptStatus.success
          error := none
          finished_at := some 5
          duration_ms := some ((5 : Int) - (a.started_at : Int)) }
          ∈ (processClaimedEvent envLogOnly evalTrue 5 (evP, 1)
              storeOrphan).attempts)
    ∧ (∀ ev ∈ storeOrphan.events, ev.id = evP.id →
        { ev with
          state := EventState.processed
          processed_at := some 5
          processing_started_at := none }
          ∈ (processClaimedEvent envLogOnly evalTrue 5 (evP, 1)
              storeOrphan).events) :=
  (spec2proof_C10).2 envLogOnly evalTrue 5 storeOrphan evP 1 (by decide)
    (by decide)

/-! ## Preservation of the lease invariant -/

theorem EventInv_of_map (s' s : Store) (g : Event → Event)
    (hev : s'.events = s.events.map g)
    (hg : ∀ e, (e.processing_started_at.isSome = true ↔ e.state = .processing) →
      ((g e).processing_started_at.isSome = true ↔ (g e).state = .processing))
    (h : EventInv s) : EventInv s' := by
  unfold EventInv at h ⊢
  rw [hev]
  intro e he
  obtain ⟨y, hy, rfl⟩ := List.mem_map.mp he
  exact hg y (h y hy)

theorem inv_create (now : Nat) (p : EventCreatePayload) (s : Store)
    (h : EventInv s) : EventInv (EventService.create now p s).2 := by
  unfold EventService.create
  split
  next e0 _ =>
    refine EventInv_of_map _ s _ rfl ?_ h
    intro y hy
    by_cases hx : (y.external_id == p.id) = true
    · simpa [hx] using hy
    · simpa [hx] using hy
  next =>
    intro e he
    rcases List.mem_append.mp he with he | he
    · exact h e he
    · rw [List.mem_singleton] at he
      subst he
      simp

theorem inv_claim (now : Nat) (s : Store) (h : EventInv s) :
    EventInv (claimNextEvent now s).2 := by
  unfold claimNextEvent
  split
  next => exact h
  next e0 _ =>
    refine EventInv_of_map _ s _ rfl ?_ h
    intro y hy
    by_cases hx : (y.id == e0.id) = true
    · simp [hx]
    · simpa [hx] using hy

theorem inv_process (env : ActionEnv)
    (evalC : Json → Json → Except String Bool) (now : Nat)
    (claim : Event × Nat) (s : Store) (h : EventInv s) :
    EventInv (processClaimedEvent env evalC now claim s) := by
  obtain ⟨h1, _, _, _, _⟩ :=
    runRules_spec env evalC now claim.2 claim.1.id claim.1.payload
      (loadRulesForEvent s claim.1.type) s
  refine EventInv_of_map _ s
    (finalizeEventRow now claim.1.id
      (runRules env evalC now claim.2 claim.1.id claim.1.payload s
        (loadRulesForEvent s claim.1.type)).2) ?_ ?_ h
  · show ((runRules env evalC now claim.2 claim.1.id claim.1.payload s
        (loadRulesForEvent s claim.1.type)).1.events).map _ = _
    rw [h1]
  · intro y hy
    unfold finalizeEventRow
    by_cases hx : (y.id == claim.1.id) = true
    · rw [if_pos hx]
      by_cases herr : (runRules env evalC now claim.2 claim.1.id
          claim.1.payload s (loadRulesForEvent s claim.1.type)).2.isEmpty
      · simp [herr]
      · simp [herr]
    · rw [if_neg hx]
      exact hy

theorem inv_replay (now eventId : Nat) (s : Store) (h : EventInv s) :
    EventInv (ReplayService.replayEvent now eventId s).2 := by
  unfold ReplayService.replayEvent
  split
  next => exact h
  next e0 _ =>
    by_cases hst : (e0.state == EventState.processed
        || e0.state == EventState.failed) = true
    · rw [if_pos hst]
      refine EventInv_of_map _ s _ rfl ?_ h
      intro y hy
      by_cases hx : (y.id == eventId) = true
      · simp [hx]
      · simpa [hx] using hy
    · rw [if_neg hst]
      exact h

theorem inv_batch (now : Nat) (ids : List Nat) (s : Store) (h : EventInv s) :
    EventInv (ReplayService.replayBatch now ids s).2 := by
  refine EventInv_of_map _ s _ rfl ?_ h
  intro y hy
  by_cases hx : (ids.contains y.id
      && (y.state == EventState.processed || y.state == EventState.failed))
      = true
  · rw [if_pos hx]
    simp
  · rw [if_neg hx]
    exact hy

theorem inv_requeue (now timeoutSeconds : Nat) (s : Store) (h : EventInv s) :
    EventInv (EventService.requeueStuck now timeoutSeconds s).2 := by
  refine EventInv_of_map _ s _ rfl ?_ h
  intro y hy
  by_cases hx : (y.state == EventState.processing
      && (match y.processing_started_at with
          | some t => decide (t + timeoutSeconds < now)
          | none => false)) = true
  · rw [if_pos hx]
    simp
  · rw [if_neg hx]
    exact hy

theorem ruleUpdate_events (now ruleId : Nat) (p : RuleUpdatePayload)
    (s s' : Store) (h : RuleService.update now ruleId p s = .ok s') :
    s'.events = s.events := by
  unfold RuleService.update at h
  split at h
  next => exact absurd h (by simp)
  next rule hf =>
    by_cases hc : (p.condition.isSome || p.action.isSome) = true
    · rw [if_pos hc] at h
      split at h
      next => exact absurd h (by simp)
      next cur hcur =>
        have h2 := Except.ok.inj h
        rw [← h2]
    · rw [if_neg hc] at h
      have h2 := Except.ok.inj h
      rw [← h2]

theorem reachable_inv : ∀ s : Store, Reachable s → EventInv s := by
  intro s h
  induction h with
  | init => intro e he; exact absurd he (List.not_mem_nil e)
  | ingest now p s0 _ ih => exact inv_create now p s0 ih
  | claim now s0 _ ih => exact inv_claim now s0 ih
  | process env evalC now claim s0 _ ih =>
      exact inv_process env evalC now claim s0 ih
  | replay now eventId s0 _ ih => exact inv_replay now eventId s0 ih
  | replayBatchStep now ids s0 _ ih => exact inv_batch now ids s0 ih
  | requeue now timeoutSeconds s0 _ ih => exact inv_requeue now timeoutSeconds s0 ih
  | ruleUpdateStep now ruleId p s0 s' _ heq ih =>
      intro e he
      rw [ruleUpdate_events now ruleId p s0 s' heq] at he
      exact ih e he

theorem claim_post (now : Nat) (s : Store) (e' : Event) (aid : Nat)
    (s' : Store) (h : claimNextEvent now s = (some (e', aid), s')) :
    e'.state = .processing
    ∧ e'.processing_started_at = some now
    ∧ (∃ a ∈ s'.attempts, a.id = aid ∧ a.event_id = e'.id ∧ a.status = none
        ∧ a.error = none ∧ a.started_at = now ∧ a.finished_at = none)
    ∧ (∀ x ∈ s'.events, x.id = e'.id →
        x.state = .processing ∧ x.processing_started_at = some now)
    ∧ (∃ e0 ∈ s.events, e0.state = .pending
        ∧ e' = { e0 with state := .processing, processing_started_at := some now }) := by
  unfold claimNextEvent at h
  split at h
  next => simp at h
  next e0 hfold =>
    have h1 := congrArg Prod.fst h
    have h2 := congrArg Prod.snd h
    simp only at h1 h2
    have h3 := Option.some.inj h1
    have he : ({ e0 with state := EventState.processing, processing_started_at := some now } : Event) = e' :=
      congrArg Prod.fst h3
    have haid : s.nextAttemptId = aid := congrArg Prod.snd h3
    obtain ⟨hm, hpend⟩ := oldestPending_mem s.events e0 hfold
    refine ⟨by rw [← he], by rw [← he], ?_, ?_, e0, hm, hpend, he.symm⟩
    · refine ⟨{ id := s.nextAttemptId
                event_id := e0.id
                status := none
                error := none
                started_at := now
                finished_at := none
                duration_ms := none }, ?_, haid, ?_, rfl, rfl, rfl, rfl⟩
      · rw [← h2]
        exact List.mem_append_right _ (List.mem_singleton.mpr rfl)
      · rw [← he]
    · intro x hx hxid
      rw [← h2] at hx
      obtain ⟨y, hy, rfl⟩ := List.mem_map.mp hx
      by_cases hid2 : (y.id == e0.id) = true
      · simp [hid2]
      · rw [if_neg hid2] at hxid ⊢
        rw [← he] at hxid
        exact absurd (by simp [hxid]) hid2

/-- C2: a successful claim commits, atomically in the model, the claimed
event with state processing and processing_started_at = now together
with a fresh in-flight attempt row (status null, started_at = now); and
every store reachable through the modelled operations satisfies the
invariant that processing_started_at is non-null exactly in state
processing. -/
theorem spec2proof_C2 :
    (∀ (now : Nat) (s : Store) (e' : Event) (aid : Nat) (s' : Store),
      claimNextEvent now s = (some (e', aid), s') →
      e'.state = .processing
      ∧ e'.processing_started_at = some now
      ∧ (∃ a ∈ s'.attempts, a.id = aid ∧ a.event_id = e'.id ∧ a.status = none
          ∧ a.error = none ∧ a.started_at = now ∧ a.finished_at = none)
      ∧ (∀ x ∈ s'.events, x.id = e'.id →
          x.state = .processing ∧ x.processing_started_at = some now)
      ∧ (∃ e0 ∈ s.events, e0.state = .pending
          ∧ e' = { e0 with state := .processing, processing_started_at := some now }))
    ∧ (∀ s : Store, Reachable s → EventInv s) :=
  ⟨claim_post, reachable_inv⟩

theorem spec2proof_C2_witness :
    (evC2Claimed.state = .processing
      ∧ evC2Claimed.processing_started_at = some 3
      ∧ (∃ a ∈ (claimNextEvent 3 storeC2).2.attempts, a.id = 1
          ∧ a.event_id = evC2Claimed.id ∧ a.status = none
          ∧ a.error = none ∧ a.started_at = 3 ∧ a.finished_at = none)
      ∧ (∀ x ∈ (claimNextEvent 3 storeC2).2.events, x.id = evC2Claimed.id →
          x.state = .processing ∧ x.processing_started_at = some 3)
      ∧ (∃ e0 ∈ storeC2.events, e0.state = .pending
          ∧ evC2Claimed = { e0 with state := .processing, processing_started_at := some 3 }))
    ∧ EventInv (claimNextEvent 3 storeC2).2 :=
  ⟨(spec2proof_C2).1 3 storeC2 evC2Claimed 1 (claimNextEvent 3 storeC2).2
      (by decide),
   (spec2proof_C2).2 (claimNextEvent 3 storeC2).2
      (Reachable.claim 3 storeC2
        (Reachable.ingest 0 payloadC2 Store.empty Reachable.init))⟩

/-! ## Ingest, replay and rule-update claims -/

theorem find_event_by_ext (s : Store) (p : EventCreatePayload) (e : Event)
    (he : e ∈ s.events) (hid : e.external_id = p.id)
    (huniq : ∀ e' ∈ s.events, e'.external_id = p.id → e' = e) :
    s.events.find? (fun x => x.external_id == p.id) = some e := by
  rcases hf : s.events.find? (fun x => x.external_id == p.id) with _ | e1
  · rw [List.find?_eq_none] at hf
    exact absurd (by simp [hid]) (hf e he)
  · have h1 : e1 ∈ s.events := List.mem_of_find?_eq_some hf
    have h2 := List.find?_some hf
    rw [← huniq e1 h1 (by simpa using h2)]
    exact hf

/-- C5: ingesting an external_id that already exists returns the stored
row with received_count incremented by exactly one and leaves everything
else alone: no other field of the row changes (payload, type and state
included), no other row changes, no row is added, and the other tables
are untouched. -/
theorem spec2proof_C5 (now : Nat) (p : EventCreatePayload) (s : Store)
    (e : Event) (he : e ∈ s.events) (hid : e.external_id = p.id)
    (huniq : ∀ e' ∈ s.events, e'.external_id = p.id → e' = e) :
    (EventService.create now p s).1
      = { e with received_count := e.received_count + 1 }
    ∧ (EventService.create now p s).2.attempts = s.attempts
    ∧ (EventService.create now p s).2.rules = s.rules
    ∧ (EventService.create now p s).2.ruleVersions = s.ruleVersions
    ∧ (EventService.create now p s).2.ruleExecutions = s.ruleExecutions
    ∧ (EventService.create now p s).2.events.length = s.events.length
    ∧ { e with received_count := e.received_count + 1 }
        ∈ (EventService.create now p s).2.events
    ∧ (∀ x ∈ s.events, x.external_id ≠ p.id
        → x ∈ (EventService.create now p s).2.events)
    ∧ (∀ x ∈ (EventService.create now p s).2.events, x.external_id = p.id →
        x = { e with received_count := e.received_count + 1 }) := by
  have hfind := find_event_by_ext s p e he hid huniq
  unfold EventService.create
  rw [hfind]
  refine ⟨rfl, rfl, rfl, rfl, rfl, List.length_map _ _, ?_, ?_, ?_⟩
  · exact List.mem_map.mpr ⟨e, he, by rw [if_pos (by simp [hid])]⟩
  · intro x hx hneq
    refine List.mem_map.mpr ⟨x, hx, ?_⟩
    rw [if_neg (by simpa using hneq)]
  · intro x hx hxid
    obtain ⟨y, hy, rfl⟩ := List.mem_map.mp hx
    by_cases hc : (y.external_id == p.id) = true
    · rw [if_pos hc]
      rw [huniq y hy (by simpa using hc)]
    · rw [if_neg hc] at hxid ⊢
      exact absurd (by simp [hxid]) hc

theorem spec2proof_C5_witness :
    ((EventService.create 9 payloadDup storeDup).1
      = { evDup with received_count := evDup.received_count + 1 }
    ∧ (EventService.create 9 payloadDup storeDup).2.attempts = storeDup.attempts
    ∧ (EventService.create 9 payloadDup storeDup).2.rules = storeDup.rules
    ∧ (EventService.create 9 payloadDup storeDup).2.ruleVersions
        = storeDup.ruleVersions
    ∧ (EventService.create 9 payloadDup storeDup).2.ruleExecutions
        = storeDup.ruleExecutions
    ∧ (EventService.create 9 payloadDup storeDup).2.events.length
        = storeDup.events.length
    ∧ { evDup with received_count := evDup.received_count + 1 }
        ∈ (EventService.create 9 payloadDup storeDup).2.events
    ∧ (∀ x ∈ storeDup.events, x.external_id ≠ payloadDup.id
        → x ∈ (EventService.create 9 payloadDup storeDup).2.events)
    ∧ (∀ x ∈ (EventService.create 9 payloadDup storeDup).2.events,
        x.external_id = payloadDup.id →
        x = { evDup with received_count := evDup.received_count + 1 }))
    ∧ (EventService.create 9 payloadDup storeDup).1.payload = payloadFoo1
    ∧ (EventService.create 9 payloadDup storeDup).1.received_count = 2
    ∧ (EventService.create 9 payloadDup storeDup).1.state = .pending :=
  ⟨spec2proof_C5 9 payloadDup storeDup evDup (by decide) rfl (by decide),
   by decide, by decide, by decide⟩

theorem find_event_by_id (s : Store) (eventId : Nat) (e : Event)
    (he : e ∈ s.events) (hid : e.id = eventId)
    (huniq : ∀ e' ∈ s.events, e'.id = eventId → e' = e) :
    s.events.find? (fun x => x.id == eventId) = some e := by
  rcases hf : s.events.find? (fun x => x.id == eventId) with _ | e1
  · rw [List.find?_eq_none] at hf
    exact absurd (by simp [hid]) (hf e he)
  · have h1 : e1 ∈ s.events := List.mem_of_find?_eq_some hf
    have h2 := List.find?_some hf
    rw [← huniq e1 h1 (by simpa using h2)]
    exact hf

/-- C7: a single replay fails with not-found when no event has the id;
with conflict (store untouched) when the event's state is neither
processed nor failed; and otherwise sets state = pending,
replayed_at = now and processing_started_at = null on that row only,
leaving every other field and row unchanged, and returns the updated
row together with the replay warning. -/
theorem spec2proof_C7 (now eventId : Nat) (s : Store) :
    ((∀ e ∈ s.events, e.id ≠ eventId) →
      ReplayService.replayEvent now eventId s = (.error .notFound, s))
    ∧ (∀ e ∈ s.events, e.id = eventId →
        (∀ e' ∈ s.events, e'.id = eventId → e' = e) →
        ((e.state ≠ .processed ∧ e.state ≠ .failed →
          ReplayService.replayEvent now eventId s = (.error .conflict, s))
        ∧ ((e.state = .processed ∨ e.state = .failed) →
          (ReplayService.replayEvent now eventId s).1
            = .ok { message := "Event queued for replay"
                    event := { e with
                      state := .pending
                      replayed_at := some now
                      processing_started_at := none }
                    warning := replayWarning }
          ∧ { e with
              state := EventState.pending
              replayed_at := some now
              processing_started_at := none }
              ∈ (ReplayService.replayEvent now eventId s).2.events
          ∧ (∀ x ∈ s.events, x.id ≠ eventId →
              x ∈ (ReplayService.replayEvent now eventId s).2.events)
          ∧ (∀ x ∈ (ReplayService.replayEvent now eventId s).2.events,
              x.id = eventId →
              x = { e with
                    state := EventState.pending
                    replayed_at := some now
                    processing_started_at := none })
          ∧ (ReplayService.replayEvent now eventId s).2.attempts = s.attempts
          ∧ (ReplayService.replayEvent now eventId s).2.rules = s.rules
          ∧ (ReplayService.replayEvent now eventId s).2.ruleVersions
              = s.ruleVersions
          ∧ (ReplayService.replayEvent now eventId s).2.ruleExecutions
              = s.ruleExecutions))) := by
  constructor
  · intro hnone
    have hfind : s.events.find? (fun x => x.id == eventId) = none := by
      rw [List.find?_eq_none]
      intro x hx
      simp [hnone x hx]
    simp only [ReplayService.replayEvent, hfind]
  · intro e he hid huniq
    have hfind := find_event_by_id s eventId e he hid huniq
    constructor
    · intro ⟨hs1, hs2⟩
      simp only [ReplayService.replayEvent, hfind]
      rw [if_neg (by simp [hs1, hs2])]
    · intro hst
      have hcond : (e.state == EventState.processed
          || e.state == EventState.failed) = true := by
        rcases hst with hst | hst <;> simp [hst]
      simp only [ReplayService.replayEvent, hfind]
      rw [if_pos hcond]
      refine ⟨rfl, ?_, ?_, ?_, rfl, rfl, rfl, rfl⟩
      · exact List.mem_map.mpr ⟨e, he, by rw [if_pos (by simp [hid])]⟩
      · intro x hx hneq
        refine List.mem_map.mpr ⟨x, hx, ?_⟩
        rw [if_neg (by simpa using hneq)]
      · intro x hx hxid
        obtain ⟨y, hy, rfl⟩ := List.mem_map.mp hx
        by_cases hc : (y.id == eventId) = true
        · rw [if_pos hc]
          rw [huniq y hy (by simpa using hc)]
        · rw [if_neg hc] at hxid ⊢
          exact absurd (by simp [hxid]) hc

theorem spec2proof_C7_witness :
    (ReplayService.replayEvent 5 99 storeTerm = (.error .notFound, storeTerm))
    ∧ ((ReplayService.replayEvent 5 1 storeTerm).1
        = .ok { message := "Event queued for replay"
                event := { evTerm with
                  state := .pending
                  replayed_at := some 5
                  processing_started_at := none }
                warning := replayWarning })
    ∧ { evTerm with
        state := EventState.pending
        replayed_at := some 5
        processing_started_at := none }
        ∈ (ReplayService.replayEvent 5 1 storeTerm).2.events
    ∧ (ReplayService.replayEvent 5 1 storeTerm).2.attempts
        = storeTerm.attempts := by
  refine ⟨?_, ?_, ?_, ?_⟩
  · exact (spec2proof_C7 5 99 storeTerm).1 (by decide)
  · exact (((spec2proof_C7 5 1 storeTerm).2 evTerm (by decide) rfl
      (by decide)).2 (Or.inl rfl)).1
  · exact (((spec2proof_C7 5 1 storeTerm).2 evTerm (by decide) rfl
      (by decide)).2 (Or.inl rfl)).2.1
  · exact (((spec2proof_C7 5 1 storeTerm).2 evTerm (by decide) rfl
      (by decide)).2 (Or.inl rfl)).2.2.2.2.1

/-- C4 counterexample: updating a rule while submitting a condition that
is byte-for-byte equal to the current version's condition (and no
action) still inserts a new rule version: the stored version count goes
from 1 to 2, refuting the claim that a version is created only when the
submitted condition or action differs from the current version's
values. -/
theorem spec2proof_C4_counterexample :
    payloadSameCond.condition = some verUpd.condition
    ∧ payloadSameCond.action = none
    ∧ ruleUpd.current_version_id = some verUpd.id
    ∧ storeUpd.ruleVersions.length = 1
    ∧ updatedVersionCount (RuleService.update 7 1 payloadSameCond storeUpd)
        = some 2 := by
  refine ⟨rfl, rfl, rfl, rfl, ?_⟩
  decide

/-- C4 amended: a rule update creates a new version (version = current
version + 1, current_version_id retargeted, updated_at bumped) exactly
when the payload contains a condition or an action, even when the
submitted values equal the current version's; an update containing
neither creates no version, keeps current_version_id, applies the
metadata fields in place, and bumps updated_at only when at least one
metadata field is present. -/
theorem spec2proof_C4 (now ruleId : Nat) (p : RuleUpdatePayload) (s : Store)
    (rule : Rule) (hr : rule ∈ s.rules) (hid : rule.id = ruleId)
    (huniq : ∀ r' ∈ s.rules, r'.id = ruleId → r' = rule) :
    (p.condition = none → p.action = none →
      ∃ s', RuleService.update now ruleId p s = .ok s'
        ∧ s'.ruleVersions = s.ruleVersions
        ∧ (∀ r' ∈ s'.rules, r'.id = ruleId →
            r'.current_version_id = rule.current_version_id
            ∧ r'.updated_at = (if p.name.isSome || p.event_type.isSome
                || p.active.isSome then now else rule.updated_at)
            ∧ r'.name = p.name.getD rule.name
            ∧ r'.event_type = p.event_type.getD rule.event_type
            ∧ r'.active = p.active.getD rule.active))
    ∧ ((p.condition ≠ none ∨ p.action ≠ none) →
      ∀ vid : Nat, rule.current_version_id = some vid →
      ∀ cur ∈ s.ruleVersions, cur.id = vid →
      (∀ v' ∈ s.ruleVersions, v'.id = vid → v' = cur) →
      ∃ s', RuleService.update now ruleId p s = .ok s'
        ∧ s'.ruleVersions = s.ruleVersions ++
            [{ id := s.nextVersionId
               rule_id := ruleId
               condition := p.condition.getD cur.condition
               action := p.action.getD cur.action
               version := cur.version + 1
               created_at := now }]
        ∧ (∀ r' ∈ s'.rules, r'.id = ruleId →
            r'.current_version_id = some s.nextVersionId
            ∧ r'.updated_at = now)) := by
  have hfindr : s.rules.find? (fun r => r.id == ruleId) = some rule := by
    rcases hf : s.rules.find? (fun r => r.id == ruleId) with _ | r1
    · rw [List.find?_eq_none] at hf
      exact absurd (by simp [hid]) (hf rule hr)
    · have h1 : r1 ∈ s.rules := List.mem_of_find?_eq_some hf
      have h2 := List.find?_some hf
      rw [← huniq r1 h1 (by simpa using h2)]
      exact hf
  constructor
  · intro hc ha
    have hcond : (p.condition.isSome || p.action.isSome) = false := by
      simp [hc, ha]
    refine ⟨{ s with rules := s.rules.map (fun r =>
        if r.id == ruleId then
          { rule with
            name := p.name.getD rule.name
            event_type := p.event_type.getD rule.event_type
            active := p.active.getD rule.active
            updated_at := if p.name.isSome || p.event_type.isSome
                || p.active.isSome then now else rule.updated_at }
        else r) }, ?_, rfl, ?_⟩
    · simp only [RuleService.update, hfindr]
      rw [if_neg (by simp [hcond])]
    · intro r' hr' hid'
      obtain ⟨y, hy, rfl⟩ := List.mem_map.mp hr'
      by_cases hcy : (y.id == ruleId) = true
      · rw [if_pos hcy]
        exact ⟨rfl, rfl, rfl, rfl, rfl⟩
      · rw [if_neg hcy] at hid'
        exact absurd (by simp [hid']) hcy
  · intro hca vid hvid cur hcur hcurid hcuruniq
    have hcond : (p.condition.isSome || p.action.isSome) = true := by
      rcases hca with hca | hca
      · simp [Option.isSome_iff_ne_none, hca]
      · simp [Option.isSome_iff_ne_none, hca]
    have hfindv : s.ruleVersions.find? (fun v => v.id == vid) = some cur := by
      rcases hf : s.ruleVersions.find? (fun v => v.id == vid) with _ | v1
      · rw [List.find?_eq_none] at hf
        exact absurd (by simp [hcurid]) (hf cur hcur)
      · have h1 : v1 ∈ s.ruleVersions := List.mem_of_find?_eq_some hf
        have h2 := List.find?_some hf
        rw [← hcuruniq v1 h1 (by simpa using h2)]
        exact hf
    refine ⟨{ s with
        ruleVersions := s.ruleVersions ++
          [{ id := s.nextVersionId
             rule_id := ruleId
             condition := p.condition.getD cur.condition
             action := p.action.getD cur.action
             version := cur.version + 1
             created_at := now }]
        nextVersionId := s.nextVersionId + 1
        rules := s.rules.map (fun r =>
          if r.id == ruleId then
            { rule with
              name := p.name.getD rule.name
              event_type := p.event_type.getD rule.event_type
              active := p.active.getD rule.active
              current_version_id := some s.nextVersionId
              updated_at := now }
          else r) }, ?_, rfl, ?_⟩
    · simp only [RuleService.update, hfindr]
      rw [if_pos hcond]
      simp only [hvid, Option.some_bind, hfindv]
    · intro r' hr' hid'
      obtain ⟨y, hy, rfl⟩ := List.mem_map.mp hr'
      by_cases hcy : (y.id == ruleId) = true
      · rw [if_pos hcy]
        exact ⟨rfl, rfl⟩
      · rw [if_neg hcy] at hid'
        exact absurd (by simp [hid']) hcy

theorem spec2proof_C4_witness :
    (∃ s', RuleService.update 7 1 payloadMetaOnly storeUpd = .ok s'
      ∧ s'.ruleVersions = storeUpd.ruleVersions
      ∧ (∀ r' ∈ s'.rules, r'.id = 1 →
          r'.current_version_id = ruleUpd.current_version_id
          ∧ r'.updated_at = (if payloadMetaOnly.name.isSome
              || payloadMetaOnly.event_type.isSome
              || payloadMetaOnly.active.isSome then 7 else ruleUpd.updated_at)
          ∧ r'.name = payloadMetaOnly.name.getD ruleUpd.name
          ∧ r'.event_type = payloadMetaOnly.event_type.getD ruleUpd.event_type
          ∧ r'.active = payloadMetaOnly.active.getD ruleUpd.active))
    ∧ (∃ s', RuleService.update 7 1 payloadSameCond storeUpd = .ok s'
      ∧ s'.ruleVersions = storeUpd.ruleVersions ++
          [{ id := storeUpd.nextVersionId
             rule_id := 1
             condition := payloadSameCond.condition.getD verUpd.condition
             action := payloadSameCond.action.getD verUpd.action
             version := verUpd.version + 1
             created_at := 7 }]
      ∧ (∀ r' ∈ s'.rules, r'.id = 1 →
          r'.current_version_id = some storeUpd.nextVersionId
          ∧ r'.updated_at = 7)) :=
  ⟨(spec2proof_C4 7 1 payloadMetaOnly storeUpd ruleUpd (by decide) rfl
      (by decide)).1 rfl rfl,
   (spec2proof_C4 7 1 payloadSameCond storeUpd ruleUpd (by decide) rfl
      (by decide)).2 (Or.inl (by decide)) 1 rfl verUpd (by decide) rfl
      (by decide)⟩
